import Mathlib

/-!
Shallow embedding of the data-access core of the todo-list service
(`database/db.go`, `model/todo.go`, and the update path of
`handler/handler.go`).

The SQLite table `todos` is modelled as a list of rows plus the
autoincrement counter.  Timestamps are natural numbers (seconds); a
nullable TEXT/DATETIME column is a `Cell` that is either NULL, a
decodable timestamp, or an undecodable stored text.  A Go
`context.Context` is modelled by the index of the first cancellation
check at which it is observed as done (`none` = never fires); the
`database/sql` primitives (`ExecContext`, `QueryRowContext`, `BeginTx`)
check the context before touching the engine, which is the behaviour of
the Go standard library.  Every operation returns, besides its result
and the store, the number of engine statements actually issued.
-/

namespace TodoList

/-- A nullable stored column value: NULL, a decodable timestamp, or a
stored text that `time.Parse (RFC3339)` cannot decode. -/
inductive Cell where
  | null
  | ts (t : Nat)
  | bad (s : String)
deriving DecidableEq, Repr

/-- Error taxonomy of the core (`ErrVersionConflict`, wrapped engine and
validation errors, context cancellation/timeout collapsed into one
distinguished outcome as in the spec). -/
inductive Err where
  | canceled
  | versionConflict
  | notFound
  | decodeError
  | batchTooLarge (n : Nat)
  | itemFailed (id : Nat)
  | validation
deriving DecidableEq, Repr

/-- In-memory `model.Todo`. -/
structure Todo where
  id : Nat := 0
  version : Nat := 1
  title : String := ""
  description : String := ""
  status : String := "pending"
  dueDate : Option Nat := none
  createdAt : Nat := 0
  updatedAt : Nat := 0
  completedAt : Option Nat := none
deriving DecidableEq, Repr

/-- One row of the `todos` table. -/
structure Row where
  id : Nat
  version : Nat
  title : String
  description : String
  status : String
  dueDate : Cell
  createdAt : Nat
  updatedAt : Nat
  completedAt : Cell
deriving DecidableEq, Repr

/-- The embedded database: the `todos` table plus the AUTOINCREMENT
counter for the next engine-assigned id. -/
structure Store where
  rows : List Row
  nextId : Nat
deriving DecidableEq, Repr

/-- A cancellation token: `some k` fires at every check with index `≥ k`,
`none` never fires.  (A Go context is monotone — once done, always
done — so it is fully described by the first check that sees it done.) -/
def Ctx := Option Nat

/-- The never-canceled context. -/
def ctxNone : Ctx := none

/-- The context that is already expired at the very first check. -/
def ctxAt (k : Nat) : Ctx := some k

/-- Whether the token is observed as done at check number `n`. -/
def ctxFired (c : Ctx) (n : Nat) : Bool :=
  match c with
  | none => false
  | some k => k ≤ n

/-- `model.NewTodo`: version 1, pending, created_at = updated_at = now. -/
def newTodo (title description : String) (now : Nat) : Todo :=
  { version := 1, title := title, description := description,
    status := "pending", createdAt := now, updatedAt := now }

/-- Render an in-memory optional timestamp into a stored column value. -/
def cellOfOpt : Option Nat → Cell
  | none => .null
  | some t => .ts t

/-- Decode a stored column value as the driver / `time.Parse` does in
`ListTodosContext` and `GetTodoByID`: NULL is absent, a timestamp is
recovered, undecodable text is a decode failure. -/
def decodeCell : Cell → Except Err (Option Nat)
  | .null => .ok none
  | .ts t => .ok (some t)
  | .bad _ => .error .decodeError

/-- Materialize one fetched row into a `model.Todo`
(fails on an undecodable `due_date` / `completed_at`). -/
def decodeRow (r : Row) : Except Err Todo :=
  match decodeCell r.dueDate, decodeCell r.completedAt with
  | .ok d, .ok c =>
      .ok { id := r.id, version := r.version, title := r.title,
            description := r.description, status := r.status,
            dueDate := d, createdAt := r.createdAt,
            updatedAt := r.updatedAt, completedAt := c }
  | .error e, _ => .error e
  | _, .error e => .error e

/-- `CreateTodoContext`: `INSERT INTO todos (title, description, status,
due_date, created_at, updated_at, version)` — note that `completed_at`
is not in the column list, so the stored value is NULL.  The engine
assigns the next id, which is copied back into the returned todo. -/
def createTodoContext (ctx : Ctx) (todo : Todo) (s : Store) :
    Except Err Todo × Store × Nat :=
  if ctxFired ctx 0 then (.error .canceled, s, 0)
  else
    let r : Row :=
      { id := s.nextId, version := todo.version, title := todo.title,
        description := todo.description, status := todo.status,
        dueDate := cellOfOpt todo.dueDate, createdAt := todo.createdAt,
        updatedAt := todo.updatedAt, completedAt := .null }
    (.ok { todo with id := s.nextId },
     { rows := s.rows ++ [r], nextId := s.nextId + 1 }, 1)

/-- The row produced by the conditional UPDATE of `UpdateTodoContext`:
mutable columns from the caller's todo, `updated_at = now`,
`version = version + 1`. -/
def bumpRow (now : Nat) (todo : Todo) (r : Row) : Row :=
  { r with
    title := todo.title
    description := todo.description
    status := todo.status
    dueDate := cellOfOpt todo.dueDate
    updatedAt := now
    completedAt := cellOfOpt todo.completedAt
    version := r.version + 1 }

/-- `UpdateTodoContext`: one conditional statement gated by
`WHERE id = ? AND version = ?`; zero affected rows is reported as
`ErrVersionConflict`; on success the caller's version is advanced. -/
def updateTodoContext (ctx : Ctx) (now : Nat) (todo : Todo) (s : Store) :
    Except Err Todo × Store × Nat :=
  if ctxFired ctx 0 then (.error .canceled, s, 0)
  else if s.rows.any (fun r => r.id == todo.id && r.version == todo.version) then
    (.ok { todo with version := todo.version + 1, updatedAt := now },
     { s with rows := s.rows.map (fun r =>
         if r.id == todo.id && r.version == todo.version then bumpRow now todo r
         else r) }, 1)
  else (.error .versionConflict, s, 1)

/-- `DeleteTodoContext`: hard delete by id, zero affected rows is "todo
not found". -/
def deleteTodoContext (ctx : Ctx) (id : Nat) (s : Store) :
    Except Err Unit × Store × Nat :=
  if ctxFired ctx 0 then (.error .canceled, s, 0)
  else if s.rows.any (fun r => r.id == id) then
    (.ok (), { s with rows := s.rows.filter (fun r => !(r.id == id)) }, 1)
  else (.error .notFound, s, 1)

/-- `GetTodoByID`: explicit absent outcome when no row matches; a row the
driver cannot materialize is an error. -/
def getTodoByID (id : Nat) (s : Store) : Except Err (Option Todo) :=
  match s.rows.find? (fun r => r.id == id) with
  | none => .ok none
  | some r => (decodeRow r).map some

/-- Whether an UPDATE gated by `id = ? AND status = 'pending'` would
affect at least one row — the per-item validity condition of the batch
complete operations. -/
def validComplete (id : Nat) (s : Store) : Bool :=
  s.rows.any (fun r => r.id == id && r.status == "pending")

/-- Whether a DELETE gated by `id = ?` would affect at least one row —
the per-item validity condition of the batch delete operations. -/
def validDelete (id : Nat) (s : Store) : Bool :=
  s.rows.any (fun r => r.id == id)

/-- The row transformation of the batch complete UPDATE:
`SET status = 'completed', completed_at = ?, updated_at = ?`. -/
def completeRow (now : Nat) (r : Row) : Row :=
  { r with status := "completed", completedAt := .ts now, updatedAt := now }

/-- One iteration of a batch complete: the conditional UPDATE inside the
transaction; zero affected rows is the per-item failure. -/
def completeOne (now : Nat) (id : Nat) (w : Store) : Except Err Store :=
  if validComplete id w then
    .ok { w with rows := w.rows.map (fun r =>
      if r.id == id && r.status == "pending" then completeRow now r else r) }
  else .error (.itemFailed id)

/-- One iteration of a batch delete: the DELETE inside the transaction;
zero affected rows is the per-item failure. -/
def deleteOne (id : Nat) (w : Store) : Except Err Store :=
  if validDelete id w then
    .ok { w with rows := w.rows.filter (fun r => !(r.id == id)) }
  else .error (.itemFailed id)

/-- The per-item loop of `BatchCompleteTodosContext`, acting on the
transaction's working store `w`.  `i` is the index of the current item
(its cancellation check has index `i + 1`; check 0 was `BeginTx`), `ex`
the number of engine statements issued so far. -/
def bcLoop (ctx : Ctx) (now : Nat) :
    List Nat → Nat → Store → Nat → Except Err Store × Nat
  | [], _, w, ex => (.ok w, ex)
  | id :: rest, i, w, ex =>
    if ctxFired ctx (i + 1) then (.error .canceled, ex)
    else
      match completeOne now id w with
      | .error e => (.error e, ex + 1)
      | .ok w' => bcLoop ctx now rest (i + 1) w' (ex + 1)

/-- `BatchCompleteTodosContext` (all-or-nothing): empty input returns at
once; more than 100 ids is rejected; otherwise one transaction applies
the conditional UPDATE to each id in order, and the first per-item
failure or cancellation rolls the whole transaction back. -/
def batchCompleteTodosContext (ctx : Ctx) (now : Nat) (ids : List Nat) (s : Store) :
    Except Err Unit × Store × Nat :=
  if ids.isEmpty then (.ok (), s, 0)
  else if ids.length > 100 then (.error (.batchTooLarge ids.length), s, 0)
  else if ctxFired ctx 0 then (.error .canceled, s, 0)
  else
    match bcLoop ctx now ids 0 s 1 with
    | (.ok w, ex) => (.ok (), w, ex + 1)
    | (.error e, ex) => (.error e, s, ex)

/-- The per-item loop of `BatchDeleteTodosContext`. -/
def bdLoop (ctx : Ctx) :
    List Nat → Nat → Store → Nat → Except Err Store × Nat
  | [], _, w, ex => (.ok w, ex)
  | id :: rest, i, w, ex =>
    if ctxFired ctx (i + 1) then (.error .canceled, ex)
    else
      match deleteOne id w with
      | .error e => (.error e, ex + 1)
      | .ok w' => bdLoop ctx rest (i + 1) w' (ex + 1)

/-- `BatchDeleteTodosContext` (all-or-nothing). -/
def batchDeleteTodosContext (ctx : Ctx) (ids : List Nat) (s : Store) :
    Except Err Unit × Store × Nat :=
  if ids.isEmpty then (.ok (), s, 0)
  else if ids.length > 100 then (.error (.batchTooLarge ids.length), s, 0)
  else if ctxFired ctx 0 then (.error .canceled, s, 0)
  else
    match bdLoop ctx ids 0 s 1 with
    | (.ok w, ex) => (.ok (), w, ex + 1)
    | (.error e, ex) => (.error e, s, ex)

/-- One recorded per-item failure of a partial-success batch. -/
structure BatchError where
  id : Nat
  error : String
deriving DecidableEq, Repr

/-- Result of a partial-success batch. -/
structure BatchResult where
  successCount : Nat := 0
  failedCount : Nat := 0
  errors : List BatchError := []
deriving DecidableEq, Repr

/-- Failure reason recorded by the partial-success batch complete. -/
def completeFailMsg : String := "not found or already completed"

/-- Failure reason recorded by the partial-success batch delete. -/
def deleteFailMsg : String := "not found"

/-- The per-item loop of the partial-success batch complete: a per-item
failure is recorded and iteration continues; cancellation stops the loop
with an error (which rolls the transaction back). -/
def pcLoop (ctx : Ctx) (now : Nat) :
    List Nat → Nat → Store → BatchResult → Nat →
    Except Err BatchResult × Store × Nat
  | [], _, w, acc, ex => (.ok acc, w, ex)
  | id :: rest, i, w, acc, ex =>
    if ctxFired ctx (i + 1) then (.error .canceled, w, ex)
    else
      match completeOne now id w with
      | .ok w' =>
          pcLoop ctx now rest (i + 1) w'
            { acc with successCount := acc.successCount + 1 } (ex + 1)
      | .error _ =>
          pcLoop ctx now rest (i + 1) w
            { acc with
              failedCount := acc.failedCount + 1
              errors := acc.errors ++ [⟨id, completeFailMsg⟩] } (ex + 1)

/-- `BatchCompleteTodosPartialContext`: one transaction, per-item
failures recorded into the result, one commit at the end; only
cancellation (or commit failure) aborts the whole call. -/
def batchCompleteTodosPartialContext (ctx : Ctx) (now : Nat) (ids : List Nat)
    (s : Store) : Except Err BatchResult × Store × Nat :=
  if ids.isEmpty then (.ok {}, s, 0)
  else if ids.length > 100 then (.error (.batchTooLarge ids.length), s, 0)
  else if ctxFired ctx 0 then (.error .canceled, s, 0)
  else
    match pcLoop ctx now ids 0 s {} 1 with
    | (.ok acc, w, ex) => (.ok acc, w, ex + 1)
    | (.error e, _, ex) => (.error e, s, ex)

/-- The per-item loop of the partial-success batch delete. -/
def pdLoop (ctx : Ctx) :
    List Nat → Nat → Store → BatchResult → Nat →
    Except Err BatchResult × Store × Nat
  | [], _, w, acc, ex => (.ok acc, w, ex)
  | id :: rest, i, w, acc, ex =>
    if ctxFired ctx (i + 1) then (.error .canceled, w, ex)
    else
      match deleteOne id w with
      | .ok w' =>
          pdLoop ctx rest (i + 1) w'
            { acc with successCount := acc.successCount + 1 } (ex + 1)
      | .error _ =>
          pdLoop ctx rest (i + 1) w
            { acc with
              failedCount := acc.failedCount + 1
              errors := acc.errors ++ [⟨id, deleteFailMsg⟩] } (ex + 1)

/-- `BatchDeleteTodosPartialContext`. -/
def batchDeleteTodosPartialContext (ctx : Ctx) (ids : List Nat) (s : Store) :
    Except Err BatchResult × Store × Nat :=
  if ids.isEmpty then (.ok {}, s, 0)
  else if ids.length > 100 then (.error (.batchTooLarge ids.length), s, 0)
  else if ctxFired ctx 0 then (.error .canceled, s, 0)
  else
    match pdLoop ctx ids 0 s {} 1 with
    | (.ok acc, w, ex) => (.ok acc, w, ex + 1)
    | (.error e, _, ex) => (.error e, s, ex)

/-- `TodoFilter`.  `limit`/`offset` are Go `int`s. -/
structure TodoFilter where
  status : String := ""
  search : String := ""
  sort : String := ""
  order : String := ""
  limit : Int := 0
  offset : Int := 0
deriving DecidableEq, Repr

/-- ASCII-insensitive uppercase (`strings.ToUpper`). -/
def upperStr (s : String) : String := ⟨s.data.map Char.toUpper⟩

/-- Lowercase, used to model the case-insensitivity of SQLite `LIKE`. -/
def lowerStr (s : String) : String := ⟨s.data.map Char.toLower⟩

/-- Whether `hay` starts with `needle` (character lists). -/
def startsWithChars : List Char → List Char → Bool
  | _, [] => true
  | [], _ :: _ => false
  | c :: cs, d :: ds => c == d && startsWithChars cs ds

/-- Whether `needle` occurs contiguously inside `hay`. -/
def containsChars (needle : List Char) : List Char → Bool
  | [] => needle.isEmpty
  | c :: cs => startsWithChars (c :: cs) needle || containsChars needle cs

/-- SQLite `col LIKE '%' || term || '%'` (case-insensitive substring). -/
def likeMatch (term s : String) : Bool :=
  containsChars (lowerStr term).data (lowerStr s).data

/-- Default handling at the top of `ListTodos`/`ListTodosContext`:
sort defaults to `created_at`, order to `DESC` (and is uppercased), a
non-positive limit resets to 50, an empty status becomes `all`. -/
def normFilter (f : TodoFilter) : TodoFilter :=
  { f with
    sort := if f.sort == "" then "created_at" else f.sort
    order := if f.order == "" then "DESC" else upperStr f.order
    limit := if f.limit ≤ 0 then 50 else f.limit
    status := if f.status == "" then "all" else f.status }

/-- The shared WHERE predicate of the count query and the data query:
status equality unless the filter status is `all`, and substring search
over title OR description. -/
def listPred (f : TodoFilter) (r : Row) : Bool :=
  (if f.status != "" && f.status != "all" then r.status == f.status else true) &&
  (if f.search != "" then
     likeMatch f.search r.title || likeMatch f.search r.description
   else true)

/-- Sort-field allow-list. -/
def allowedSort (s : String) : Bool :=
  s == "created_at" || s == "due_date" || s == "status"

/-- Order allow-list. -/
def allowedOrder (s : String) : Bool := s == "ASC" || s == "DESC"

/-- The sort field after allow-list validation (silent fallback). -/
def finalSort (f : TodoFilter) : String :=
  if allowedSort f.sort then f.sort else "created_at"

/-- The order after allow-list validation (silent fallback). -/
def finalOrder (f : TodoFilter) : String :=
  if allowedOrder f.order then f.order else "DESC"

/-- String comparison used to model SQLite TEXT ordering. -/
def strLe (a b : String) : Bool := decide (a < b) || a == b

/-- Ordering on a nullable column: NULLs sort first, then timestamps,
then raw text. -/
def cellLe : Cell → Cell → Bool
  | .null, _ => true
  | .ts _, .null => false
  | .ts a, .ts b => a ≤ b
  | .ts _, .bad _ => true
  | .bad _, .null => false
  | .bad _, .ts _ => false
  | .bad a, .bad b => strLe a b

/-- The ORDER BY comparison for a validated sort field and order. -/
def rowLe (sortField orderDir : String) (r1 r2 : Row) : Bool :=
  let asc :=
    if sortField == "due_date" then cellLe r1.dueDate r2.dueDate
    else if sortField == "status" then strLe r1.status r2.status
    else decide (r1.createdAt ≤ r2.createdAt)
  if orderDir == "DESC" then
    if sortField == "due_date" then cellLe r2.dueDate r1.dueDate
    else if sortField == "status" then strLe r2.status r1.status
    else decide (r2.createdAt ≤ r1.createdAt)
  else asc

/-- Insert into a sorted list (model of the engine's ORDER BY). -/
def insertRow (le : Row → Row → Bool) (r : Row) : List Row → List Row
  | [] => [r]
  | x :: xs => if le r x then r :: x :: xs else x :: insertRow le r xs

/-- Insertion sort (model of the engine's ORDER BY). -/
def sortRows (le : Row → Row → Bool) : List Row → List Row
  | [] => []
  | x :: xs => insertRow le x (sortRows le xs)

/-- The page the data query returns: shared predicate, validated ORDER
BY, then `LIMIT ? OFFSET ?` (a negative offset reads as 0). -/
def pageOf (f : TodoFilter) (s : Store) : List Row :=
  let nf := normFilter f
  let matched := s.rows.filter (listPred nf)
  ((sortRows (rowLe (finalSort nf) (finalOrder nf)) matched).drop
      nf.offset.toNat).take nf.limit.toNat

/-- The row-scan loop of `ListTodosContext`: a cancellation check before
each row (checks 0 and 1 were the count and data queries), then decode;
any failure aborts the whole call. -/
def listLoop (ctx : Ctx) : List Row → Nat → Except Err (List Todo)
  | [], _ => .ok []
  | r :: rest, i =>
    if ctxFired ctx (i + 2) then .error .canceled
    else
      match decodeRow r with
      | .error e => .error e
      | .ok t =>
          match listLoop ctx rest (i + 1) with
          | .ok ts => .ok (t :: ts)
          | .error e => .error e

/-- `ListTodosContext`: count query, then data query with ORDER BY /
LIMIT / OFFSET, then the scan loop.  The second component is the number
of engine statements issued. -/
def listTodosContext (ctx : Ctx) (f : TodoFilter) (s : Store) :
    Except Err (List Todo × Nat) × Nat :=
  if ctxFired ctx 0 then (.error .canceled, 0)
  else
    let nf := normFilter f
    let total := (s.rows.filter (listPred nf)).length
    if ctxFired ctx 1 then (.error .canceled, 1)
    else
      match listLoop ctx (pageOf f s) 0 with
      | .ok items => (.ok (items, total), 2)
      | .error e => (.error e, 2)

/-- The lenient decode of the non-context `ListTodos`
(`t, _ := time.Parse(...)`): a parse failure is ignored and the zero
time is kept instead of aborting. -/
def decodeCellLegacy : Cell → Option Nat
  | .null => none
  | .ts t => some t
  | .bad _ => some 0

/-- Row materialization of the non-context `ListTodos`. -/
def decodeRowLegacy (r : Row) : Todo :=
  { id := r.id, version := r.version, title := r.title,
    description := r.description, status := r.status,
    dueDate := decodeCellLegacy r.dueDate, createdAt := r.createdAt,
    updatedAt := r.updatedAt, completedAt := decodeCellLegacy r.completedAt }

/-- The non-context `ListTodos` (same queries, no cancellation token,
lenient decode). -/
def listTodos (f : TodoFilter) (s : Store) : Except Err (List Todo × Nat) :=
  let nf := normFilter f
  let total := (s.rows.filter (listPred nf)).length
  .ok ((pageOf f s).map decodeRowLegacy, total)

/-- `TodoStats`. -/
structure TodoStats where
  total : Nat := 0
  pending : Nat := 0
  completed : Nat := 0
  overdue : Nat := 0
  today : Nat := 0
  thisWeek : Nat := 0
deriving DecidableEq, Repr

/-- A conditional aggregate `SUM(CASE WHEN p THEN 1 ELSE 0 END)`:
over an empty table SQLite's SUM yields NULL. -/
def sumCase (rows : List Row) (p : Row → Bool) : Option Nat :=
  if rows.isEmpty then none else some (rows.filter p).length

/-- `date(ts)` — the calendar day of a timestamp. -/
def dateOf (t : Nat) : Nat := t / 86400

/-- `due_date IS NOT NULL AND due_date < now` (undecodable text never
compares below a well-formed timestamp). -/
def dueBefore (r : Row) (now : Nat) : Bool :=
  match r.dueDate with
  | .ts t => t < now
  | _ => false

/-- `due_date IS NOT NULL AND date(due_date) = day` (SQLite's `date()`
yields NULL on malformed text, which never compares equal). -/
def dueOnDate (r : Row) (day : Nat) : Bool :=
  match r.dueDate with
  | .ts t => dateOf t == day
  | _ => false

/-- `due_date IS NOT NULL AND date(due_date) BETWEEN lo AND hi`. -/
def dueInRange (r : Row) (lo hi : Nat) : Bool :=
  match r.dueDate with
  | .ts t => lo ≤ dateOf t && dateOf t ≤ hi
  | _ => false

/-- `GetStatsContext`: one aggregate query; every NULL produced by a
conditional SUM over an empty table is normalized to zero via the
`sql.NullInt64` scan targets. -/
def getStatsContext (ctx : Ctx) (now : Nat) (s : Store) :
    Except Err TodoStats × Nat :=
  if ctxFired ctx 0 then (.error .canceled, 0)
  else
    let rows := s.rows
    let today := dateOf now
    let weekLater := dateOf now + 7
    let isPending := fun (r : Row) => r.status == "pending"
    (.ok {
      total := rows.length
      pending := (sumCase rows isPending).getD 0
      completed := (sumCase rows (fun r => r.status == "completed")).getD 0
      overdue := (sumCase rows (fun r => isPending r && dueBefore r now)).getD 0
      today := (sumCase rows (fun r => isPending r && dueOnDate r today)).getD 0
      thisWeek := (sumCase rows (fun r =>
        isPending r && dueInRange r today weekLater)).getD 0 }, 1)

/-- The JSON body of a PUT `/todos/{id}` request (`UpdateTodoRequest`):
absent fields leave the stored value untouched. -/
structure UpdateReq where
  version : Option Nat := none
  title : Option String := none
  description : Option String := none
  status : Option String := none
  dueDate : Option Nat := none
deriving DecidableEq, Repr

/-- The field merge of the handler's `UpdateTodo`: copy present fields
onto the freshly fetched todo; a status of `completed` also stamps
`completed_at`, a status of `pending` clears it, and any other status
string is copied verbatim leaving `completed_at` as fetched. -/
def mergeUpdate (now : Nat) (t : Todo) (req : UpdateReq) : Todo :=
  let t := match req.title with
    | some x => { t with title := x }
    | none => t
  let t := match req.description with
    | some x => { t with description := x }
    | none => t
  let t := match req.status with
    | some st =>
        let t := { t with status := st }
        if st == "completed" then { t with completedAt := some now }
        else if st == "pending" then { t with completedAt := none }
        else t
    | none => t
  let t := match req.dueDate with
    | some d => { t with dueDate := some d, updatedAt := now }
    | none => t
  match req.version with
  | some v => { t with version := v }
  | none => t

/-- The handler's `UpdateTodo` pipeline: validate the supplied version,
fetch the current row, merge the request, then run the version-gated
store update.  The trailing `Nat` counts engine statements (the fetch
plus the conditional UPDATE). -/
def handlerUpdateTodo (ctx : Ctx) (now : Nat) (id : Nat) (req : UpdateReq)
    (s : Store) : Except Err Todo × Store × Nat :=
  if (match req.version with | some v => v < 1 | none => false : Bool) then
    (.error .validation, s, 0)
  else
    match getTodoByID id s with
    | .error e => (.error e, s, 1)
    | .ok none => (.error .notFound, s, 1)
    | .ok (some t0) =>
        match updateTodoContext ctx now (mergeUpdate now t0 req) s with
        | (res, s', n) => (res, s', n + 1)

/-! ### Generic list helpers -/

theorem any_map_of_pres {l : List Row} {g : Row → Row} {p : Row → Bool}
    (h : ∀ r, p (g r) = p r) : (l.map g).any p = l.any p := by
  rw [List.any_map]
  have hp : p ∘ g = p := funext h
  rw [hp]

theorem filter_map_of_pres {l : List Row} {g : Row → Row} {p : Row → Bool}
    (h : ∀ r, p (g r) = p r) : (l.map g).filter p = (l.filter p).map g := by
  induction l with
  | nil => rfl
  | cons x xs ih =>
      by_cases hc : p x = true
      · simp [List.filter_cons, hc, h x, ih]
      · simp only [Bool.not_eq_true] at hc
        simp [List.filter_cons, hc, h x, ih]

theorem find?_map_of_pres {l : List Row} {g : Row → Row} {p : Row → Bool}
    (h : ∀ r, p (g r) = p r) : (l.map g).find? p = (l.find? p).map g := by
  rw [List.find?_map]
  have hp : p ∘ g = p := funext h
  rw [hp]

theorem find?_append_of_none {l m : List Row} {p : Row → Bool}
    (h : ∀ r ∈ l, p r = false) : (l ++ m).find? p = m.find? p := by
  induction l with
  | nil => rfl
  | cons x xs ih =>
      have hx := h x (List.mem_cons_self x xs)
      simp only [List.cons_append, List.find?_cons, hx]
      exact ih (fun r hr => h r (List.mem_cons_of_mem x hr))

theorem filter_eq_nil_of_none {l : List Row} {p : Row → Bool}
    (h : ∀ r ∈ l, p r = false) : l.filter p = [] := by
  induction l with
  | nil => rfl
  | cons x xs ih =>
      have hx := h x (List.mem_cons_self x xs)
      simp only [List.filter_cons, hx]
      exact ih (fun r hr => h r (List.mem_cons_of_mem x hr))

theorem any_by_id (l : List Row) (id : Nat) (q : Row → Bool) :
    l.any (fun r => (r.id == id) && q r) =
      (l.filter (fun r => r.id == id)).any q := by
  induction l with
  | nil => rfl
  | cons x xs ih =>
      rw [List.any_cons, List.filter_cons]
      by_cases hx : (x.id == id) = true
      · rw [if_pos hx, hx, Bool.true_and, List.any_cons, ih]
      · rw [if_neg (by simpa using hx)]
        simp only [Bool.not_eq_true] at hx
        rw [hx, Bool.false_and, Bool.false_or, ih]

/-! ### Store observation helpers -/

/-- The version currently stored for an id (first matching row). -/
def rowVersion (s : Store) (id : Nat) : Option Nat :=
  (s.rows.find? (fun r => r.id == id)).map (fun r => r.version)

/-- Number of stored rows carrying an id. -/
def idCount (s : Store) (id : Nat) : Nat :=
  (s.rows.filter (fun r => r.id == id)).length

/-- The rows carrying an id. -/
def rowsOf (s : Store) (id : Nat) : List Row :=
  s.rows.filter (fun r => r.id == id)

/-- The completion mutation has been applied to an id: some row with the
id is completed and none is still pending. -/
def mutatedComplete (id : Nat) (s : Store) : Bool :=
  s.rows.any (fun r => r.id == id && r.status == "completed") &&
  !(s.rows.any (fun r => r.id == id && r.status == "pending"))

/-- The deletion mutation has been applied to an id: no row carries it. -/
def mutatedDelete (id : Nat) (s : Store) : Bool :=
  !(s.rows.any (fun r => r.id == id))

/-- An all-zero store for concrete instantiations. -/
def emptyStore : Store := ⟨[], 1⟩

theorem ctxNone_fired (n : Nat) : ctxFired ctxNone n = false := rfl

theorem any_eq_false_of {l : List Row} {p : Row → Bool}
    (h : ∀ r ∈ l, p r = false) : l.any p = false := by
  induction l with
  | nil => rfl
  | cons x xs ih =>
      rw [List.any_cons, h x (List.mem_cons_self x xs), Bool.false_or]
      exact ih (fun r hr => h r (List.mem_cons_of_mem x hr))

/-! ### Claim C10 — empty batches are immediate successes -/

/-- C10: each of the four batch operations invoked with an empty id list
returns success immediately — the all-or-nothing variants with no error,
the partial-success variants with an all-zero result — without opening a
transaction, issuing any engine statement, or changing the store, for
every cancellation token. -/
theorem empty_batch_noop (ctx : Ctx) (now : Nat) (s : Store) :
    batchCompleteTodosContext ctx now [] s = (.ok (), s, 0) ∧
    batchDeleteTodosContext ctx [] s = (.ok (), s, 0) ∧
    batchCompleteTodosPartialContext ctx now [] s =
      (.ok ⟨0, 0, []⟩, s, 0) ∧
    batchDeleteTodosPartialContext ctx [] s = (.ok ⟨0, 0, []⟩, s, 0) :=
  ⟨rfl, rfl, rfl, rfl⟩

/-! ### Claim C9 — stats on the empty store -/

/-- C9: on a store with zero rows, `GetStatsContext` succeeds and returns
all six counts as exactly 0 — every NULL produced by the conditional
aggregate sums is normalized to zero, not surfaced as an error or a
missing field. -/
theorem stats_empty_store_zero (now : Nat) (nextId : Nat) :
    getStatsContext ctxNone now ⟨[], nextId⟩ =
      (.ok ⟨0, 0, 0, 0, 0, 0⟩, 1) := rfl

/-! ### Claim C2 — version conflicts leave the store unchanged -/

/-- C2: an update whose expected version matches no stored row — a stale
version or a missing id alike — returns `ErrVersionConflict` and leaves
every stored row completely unchanged (no field, including version and
updated_at, is modified). -/
theorem update_conflict_store_unchanged (now : Nat) (t : Todo) (s : Store)
    (h : ∀ r ∈ s.rows, ¬(r.id = t.id ∧ r.version = t.version)) :
    updateTodoContext ctxNone now t s = (.error .versionConflict, s, 1) := by
  have hany : s.rows.any (fun r => r.id == t.id && r.version == t.version)
      = false := by
    apply any_eq_false_of
    intro r hr
    cases hb : (r.id == t.id && r.version == t.version) with
    | false => rfl
    | true =>
        exfalso
        simp only [Bool.and_eq_true, beq_iff_eq] at hb
        exact h r hr hb
  unfold updateTodoContext
  rw [ctxNone_fired, if_neg (by simp), hany]
  simp

/-- Concrete instance of C2: updating id 1 with expected version 1 while
the stored row holds version 2 conflicts and changes nothing. -/
theorem update_conflict_store_unchanged_witness :
    updateTodoContext ctxNone 30
      { id := 1, version := 1, title := "x" }
      ⟨[{ id := 1, version := 2, title := "Buy milk", description := "",
          status := "completed", dueDate := .null, createdAt := 10,
          updatedAt := 20, completedAt := .ts 20 }], 2⟩ =
      (.error .versionConflict,
       ⟨[{ id := 1, version := 2, title := "Buy milk", description := "",
           status := "completed", dueDate := .null, createdAt := 10,
           updatedAt := 20, completedAt := .ts 20 }], 2⟩, 1) :=
  update_conflict_store_unchanged 30
    { id := 1, version := 1, title := "x" } _ (by decide)

/-! ### Claim C5 — the reported total ignores paging -/

theorem listOk_total {f : TodoFilter} {s : Store} {xs : List Todo}
    {t e : Nat} (h : listTodosContext ctxNone f s = (.ok (xs, t), e)) :
    t = (s.rows.filter (listPred (normFilter f))).length := by
  simp only [listTodosContext, ctxNone_fired, Bool.false_eq_true, if_false] at h
  cases hl : listLoop ctxNone (pageOf f s) 0 with
  | ok items =>
      rw [hl] at h
      have := (Prod.mk.injEq _ _ _ _).mp h
      have h1 := this.1
      rw [Except.ok.injEq, Prod.mk.injEq] at h1
      exact h1.2.symm
  | error e' =>
      rw [hl] at h
      exact absurd h (by simp)

/-- C5: for a fixed status/search/sort/order filter and any store state,
the total reported by a successful `ListTodosContext` call is identical
regardless of page size and page offset, because the count query and the
data query share the same predicate logic. -/
theorem list_total_independent_of_paging (f : TodoFilter) (s : Store)
    (l1 o1 l2 o2 : Int) (xs ys : List Todo) (t1 t2 e1 e2 : Nat)
    (h1 : listTodosContext ctxNone { f with limit := l1, offset := o1 } s
            = (.ok (xs, t1), e1))
    (h2 : listTodosContext ctxNone { f with limit := l2, offset := o2 } s
            = (.ok (ys, t2), e2)) :
    t1 = t2 := by
  have hp : listPred (normFilter { f with limit := l1, offset := o1 }) =
      listPred (normFilter { f with limit := l2, offset := o2 }) := by
    funext r
    simp [normFilter, listPred]
  rw [listOk_total h1, listOk_total h2, hp]

/-- Concrete instance of C5: page size 1 and page size 1000 with a large
offset report the same total for the same search filter. -/
theorem list_total_independent_of_paging_witness :
    (1 : Nat) = 1 :=
  list_total_independent_of_paging
    { search := "milk" }
    ⟨[{ id := 1, version := 1, title := "Buy milk", description := "",
        status := "pending", dueDate := .null, createdAt := 10,
        updatedAt := 10, completedAt := .null }], 2⟩
    1 0 1000 5
    [{ id := 1, version := 1, title := "Buy milk", description := "",
       status := "pending", dueDate := none, createdAt := 10,
       updatedAt := 10, completedAt := none }]
    [] 1 1 2 2 (by rfl) (by rfl)

/-! ### Claim C7 — undecodable rows abort a List call -/

/-- A fetched row whose `due_date` or `completed_at` holds a stored value
`time.Parse` cannot decode. -/
def cellBad : Cell → Bool
  | .bad _ => true
  | _ => false

/-- A fetched row whose `due_date` or `completed_at` cannot be decoded. -/
def hasBadCell (r : Row) : Bool :=
  cellBad r.dueDate || cellBad r.completedAt

theorem decodeRow_error_of_bad {r : Row} (h : hasBadCell r = true) :
    decodeRow r = .error .decodeError := by
  unfold hasBadCell at h
  cases hd : r.dueDate <;> cases hc : r.completedAt <;>
    simp [cellBad, hd, hc] at h <;>
    simp [decodeRow, decodeCell, hd, hc]

theorem decodeRow_ok_of_good {r : Row} (h : hasBadCell r = false) :
    ∃ t, decodeRow r = .ok t := by
  unfold hasBadCell at h
  cases hd : r.dueDate <;> cases hc : r.completedAt <;>
    simp [cellBad, hd, hc] at h <;>
    simp [decodeRow, decodeCell, hd, hc]

theorem listLoop_bad {rows : List Row} (i : Nat)
    (h : ∃ r ∈ rows, hasBadCell r = true) :
    listLoop ctxNone rows i = .error .decodeError := by
  induction rows generalizing i with
  | nil => simp at h
  | cons x rest ih =>
      unfold listLoop
      rw [ctxNone_fired]
      simp only [Bool.false_eq_true, if_false]
      by_cases hx : hasBadCell x = true
      · rw [decodeRow_error_of_bad hx]
      · obtain ⟨t, ht⟩ := decodeRow_ok_of_good (by simpa using hx)
        rw [ht]
        obtain ⟨r, hr, hbad⟩ := h
        rcases List.mem_cons.mp hr with hr | hr
        · exact absurd (hr ▸ hbad) hx
        · rw [ih (i + 1) ⟨r, hr, hbad⟩]

/-- C7 (amended): for `ListTodosContext` — the token-taking List used by
the service — any fetched row with an undecodable stored
`due_date`/`completed_at` aborts the whole call with a DecodeError and no
items are returned.  (The legacy non-context `ListTodos` instead ignores
the parse failure; see the counterexample.) -/
theorem list_decode_abort (f : TodoFilter) (s : Store)
    (h : ∃ r ∈ pageOf f s, hasBadCell r = true) :
    listTodosContext ctxNone f s = (.error .decodeError, 2) := by
  simp only [listTodosContext, ctxNone_fired, Bool.false_eq_true, if_false]
  rw [listLoop_bad 0 h]

/-- The undecodable row used to separate the two List variants. -/
def c7row : Row :=
  { id := 1, version := 1, title := "a", description := "",
    status := "pending", dueDate := .bad "oops", createdAt := 0,
    updatedAt := 0, completedAt := .null }

/-- A store holding only the undecodable row. -/
def c7store : Store := ⟨[c7row], 2⟩

/-- C7 as frozen is false for the non-context `ListTodos` (also cited by
the claim): a fetched row with an undecodable `due_date` does not abort
the call — the parse error is discarded and the zero time is returned in
a successful page. -/
theorem legacy_list_returns_undecodable_row :
    hasBadCell c7row = true ∧
    pageOf {} c7store = [c7row] ∧
    listTodos {} c7store =
      .ok ([{ id := 1, version := 1, title := "a", description := "",
              status := "pending", dueDate := some 0, createdAt := 0,
              updatedAt := 0, completedAt := none }], 1) :=
  ⟨rfl, rfl, rfl⟩

/-- Concrete instance of the amended C7: the context List aborts with a
DecodeError on the same store. -/
theorem list_decode_abort_witness :
    listTodosContext ctxNone {} c7store = (.error .decodeError, 2) :=
  list_decode_abort {} c7store ⟨c7row, by decide, by decide⟩

/-! ### Claim C1 — the stored version counts successful updates -/

/-- The mutable field values a caller chooses for one update round trip
(the caller re-sends its todo with these fields changed; id and version
come from the todo it holds). -/
structure Mut where
  title : String := ""
  description : String := ""
  status : String := "pending"
  dueDate : Option Nat := none
  completedAt : Option Nat := none
deriving DecidableEq, Repr

/-- Write the chosen field values onto the caller's in-memory todo. -/
def applyMut (t : Todo) (m : Mut) : Todo :=
  { t with
    title := m.title
    description := m.description
    status := m.status
    dueDate := m.dueDate
    completedAt := m.completedAt }

/-- A sequence of update round trips against one row: each step sends the
current in-memory todo with new field values; `none` as soon as any
update does not succeed. -/
def runUpdates (ctx : Ctx) (now : Nat) :
    List Mut → Todo → Store → Option (Todo × Store)
  | [], t, s => some (t, s)
  | m :: rest, t, s =>
    match updateTodoContext ctx now (applyMut t m) s with
    | (.ok t', s', _) => runUpdates ctx now rest t' s'
    | _ => none

theorem update_ok_spec {now : Nat} {t t' : Todo} {s s' : Store} {n : Nat}
    (h1 : idCount s t.id = 1)
    (h2 : rowVersion s t.id = some t.version)
    (h : updateTodoContext ctxNone now t s = (.ok t', s', n)) :
    t'.id = t.id ∧ t'.version = t.version + 1 ∧
    idCount s' t.id = 1 ∧ rowVersion s' t.id = some t'.version := by
  unfold rowVersion at h2
  cases hf : s.rows.find? (fun r => r.id == t.id) with
  | none => rw [hf] at h2; exact absurd h2 (by simp)
  | some r0 =>
      rw [hf] at h2
      simp only [Option.map_some', Option.some.injEq] at h2
      have hr0mem : r0 ∈ s.rows := List.mem_of_find?_eq_some hf
      have hr0id0 := List.find?_some hf
      have hr0id : (r0.id == t.id) = true := hr0id0
      have hany : s.rows.any
          (fun r => r.id == t.id && r.version == t.version) = true := by
        rw [List.any_eq_true]
        exact ⟨r0, hr0mem, by rw [hr0id, Bool.true_and, h2, beq_self_eq_true]⟩
      simp only [updateTodoContext, ctxNone_fired, Bool.false_eq_true,
        if_false, hany, if_true, Prod.mk.injEq, Except.ok.injEq] at h
      obtain ⟨ht', hs', _⟩ := h
      have hpres : ∀ r : Row,
          (((if r.id == t.id && r.version == t.version
             then bumpRow now t r else r).id == t.id)) = (r.id == t.id) := by
        intro r
        by_cases hc : (r.id == t.id && r.version == t.version) = true
        · rw [if_pos hc]; rfl
        · rw [if_neg hc]
      refine ⟨by rw [← ht'], by rw [← ht'], ?_, ?_⟩
      · unfold idCount
        rw [← hs']
        show ((s.rows.map _).filter _).length = 1
        rw [filter_map_of_pres hpres, List.length_map]
        exact h1
      · unfold rowVersion
        rw [← hs']
        show ((s.rows.map _).find? _).map _ = _
        rw [find?_map_of_pres hpres, hf]
        have hcond : (r0.id == t.id && r0.version == t.version) = true := by
          rw [hr0id, Bool.true_and, h2, beq_self_eq_true]
        simp only [Option.map_some']
        rw [if_pos hcond]
        show some (r0.version + 1) = some t'.version
        rw [h2, ← ht']

theorem runUpdates_spec {now : Nat} :
    ∀ (ms : List Mut) (t : Todo) (s : Store) (t' : Todo) (s' : Store),
    idCount s t.id = 1 →
    rowVersion s t.id = some t.version →
    runUpdates ctxNone now ms t s = some (t', s') →
    t'.id = t.id ∧ t'.version = t.version + ms.length ∧
    rowVersion s' t.id = some t'.version ∧ idCount s' t.id = 1 := by
  intro ms
  induction ms with
  | nil =>
      intro t s t' s' h1 h2 h
      unfold runUpdates at h
      simp only [Option.some.injEq, Prod.mk.injEq] at h
      obtain ⟨ht, hs⟩ := h
      subst ht hs
      exact ⟨rfl, rfl, h2, h1⟩
  | cons m rest ih =>
      intro t s t' s' h1 h2 h
      unfold runUpdates at h
      rcases hu : updateTodoContext ctxNone now (applyMut t m) s with ⟨res, s1, ex⟩
      rw [hu] at h
      cases res with
      | error e => exact absurd h (by simp)
      | ok t1 =>
          have ham_id : (applyMut t m).id = t.id := rfl
          have ham_v : (applyMut t m).version = t.version := rfl
          have hstep := @update_ok_spec now (applyMut t m) t1 s s1 ex
            (by rw [ham_id]; exact h1) (by rw [ham_id, ham_v]; exact h2) hu
          rw [ham_id, ham_v] at hstep
          obtain ⟨hid1, hv1, hc1, hrv1⟩ := hstep
          have := ih t1 s1 t' s'
            (by rw [hid1]; exact hc1) (by rw [hid1, hrv1]) h
          obtain ⟨hid', hv', hrv', hc'⟩ := this
          refine ⟨by rw [hid', hid1], ?_, ?_, ?_⟩
          · rw [hv', hv1, List.length_cons]
            omega
          · rw [← hid1]
            exact hrv'
          · rw [← hid1]
            exact hc'

theorem create_fresh {t t1 : Todo} {s s1 : Store} {ex : Nat}
    (hw : ∀ r ∈ s.rows, r.id < s.nextId)
    (h : createTodoContext ctxNone t s = (.ok t1, s1, ex)) :
    t1.id = s.nextId ∧ t1.version = t.version ∧
    idCount s1 t1.id = 1 ∧ rowVersion s1 t1.id = some t.version := by
  simp only [createTodoContext, ctxNone_fired, Bool.false_eq_true, if_false,
    Prod.mk.injEq, Except.ok.injEq] at h
  obtain ⟨ht1, hs1, _⟩ := h
  have hid : t1.id = s.nextId := by rw [← ht1]
  have hold : ∀ r ∈ s.rows, (r.id == s.nextId) = false := by
    intro r hr
    exact beq_eq_false_iff_ne.mpr (Nat.ne_of_lt (hw r hr))
  constructor
  · exact hid
  constructor
  · rw [← ht1]
  constructor
  · unfold idCount
    rw [← hs1, hid]
    show ((s.rows ++ [_]).filter _).length = 1
    rw [List.filter_append, filter_eq_nil_of_none hold]
    simp
  · unfold rowVersion
    rw [← hs1, hid]
    show ((s.rows ++ [_]).find? _).map _ = _
    rw [find?_append_of_none hold]
    simp [List.find?_cons]

/-- C1: a successful version-gated update increments the stored version
of its row by exactly 1 and advances the caller's in-memory version to
mirror it; consequently, for a row created by Create with version 1,
after any sequence of N successful updates to that row the stored
version equals 1 + N. -/
theorem version_monotonic :
    (∀ (now : Nat) (t t' : Todo) (s s' : Store) (ex : Nat),
        idCount s t.id = 1 →
        rowVersion s t.id = some t.version →
        updateTodoContext ctxNone now t s = (.ok t', s', ex) →
        rowVersion s' t.id = some (t.version + 1) ∧
        t'.version = t.version + 1) ∧
    (∀ (now : Nat) (t t1 t2 : Todo) (ms : List Mut) (s s1 s2 : Store)
        (ex : Nat),
        (∀ r ∈ s.rows, r.id < s.nextId) →
        t.version = 1 →
        createTodoContext ctxNone t s = (.ok t1, s1, ex) →
        runUpdates ctxNone now ms t1 s1 = some (t2, s2) →
        rowVersion s2 t1.id = some (1 + ms.length) ∧
        t2.version = 1 + ms.length) := by
  constructor
  · intro now t t' s s' ex h1 h2 h
    obtain ⟨_, hv, _, hrv⟩ := update_ok_spec h1 h2 h
    exact ⟨by rw [hrv, hv], hv⟩
  · intro now t t1 t2 ms s s1 s2 ex hw hv1 hc hr
    obtain ⟨_, htv, hcnt, hrv⟩ := create_fresh hw hc
    have hrv' : rowVersion s1 t1.id = some t1.version := by
      rw [hrv, htv, hv1]
    obtain ⟨_, hv2, hrv2, _⟩ := runUpdates_spec ms t1 s1 t2 s2 hcnt hrv' hr
    rw [htv, hv1] at hv2
    refine ⟨?_, by rw [hv2, Nat.add_comm]⟩
    rw [hrv2, hv2, Nat.add_comm]

/-- The store after the concrete create-then-update run used to witness
C1. -/
def c1finalStore : Store :=
  ⟨[{ id := 1, version := 2, title := "b", description := "",
      status := "pending", dueDate := .null, createdAt := 0,
      updatedAt := 5, completedAt := .null }], 2⟩

/-- Concrete instance of C1: create one row (version 1), apply one
successful update; the stored version and the caller's version are both
1 + 1. -/
theorem version_monotonic_witness :
    rowVersion c1finalStore
        ({ newTodo "a" "" 0 with id := 1 } : Todo).id = some (1 + 1) ∧
    ({ id := 1, version := 2, title := "b", description := "",
       status := "pending", dueDate := none, createdAt := 0,
       updatedAt := 5, completedAt := none } : Todo).version = 1 + 1 :=
  version_monotonic.2 5 (newTodo "a" "" 0)
    { newTodo "a" "" 0 with id := 1 }
    { id := 1, version := 2, title := "b", description := "",
      status := "pending", dueDate := none, createdAt := 0,
      updatedAt := 5, completedAt := none }
    [{ title := "b", status := "pending" }]
    emptyStore
    ⟨[{ id := 1, version := 1, title := "a", description := "",
        status := "pending", dueDate := .null, createdAt := 0,
        updatedAt := 0, completedAt := .null }], 2⟩
    c1finalStore 1
    (by intro r hr; simp [emptyStore] at hr) rfl rfl rfl

/-! ### Claim C3 — all-or-nothing batches roll back entirely -/

theorem bc_error_rollback {ctx : Ctx} {now : Nat} {ids : List Nat}
    {s s' : Store} {e : Err} {ex : Nat}
    (h : batchCompleteTodosContext ctx now ids s = (.error e, s', ex)) :
    s' = s := by
  unfold batchCompleteTodosContext at h
  split at h
  · exact absurd h (by simp)
  · split at h
    · simp only [Prod.mk.injEq, Except.error.injEq] at h
      exact h.2.1.symm
    · split at h
      · simp only [Prod.mk.injEq, Except.error.injEq] at h
        exact h.2.1.symm
      · rcases hb : bcLoop ctx now ids 0 s 1 with ⟨res, ex'⟩
        rw [hb] at h
        cases res with
        | ok w => exact absurd h (by simp)
        | error e' =>
            simp only [Prod.mk.injEq, Except.error.injEq] at h
            exact h.2.1.symm

theorem bd_error_rollback {ctx : Ctx} {ids : List Nat}
    {s s' : Store} {e : Err} {ex : Nat}
    (h : batchDeleteTodosContext ctx ids s = (.error e, s', ex)) :
    s' = s := by
  unfold batchDeleteTodosContext at h
  split at h
  · exact absurd h (by simp)
  · split at h
    · simp only [Prod.mk.injEq, Except.error.injEq] at h
      exact h.2.1.symm
    · split at h
      · simp only [Prod.mk.injEq, Except.error.injEq] at h
        exact h.2.1.symm
      · rcases hb : bdLoop ctx ids 0 s 1 with ⟨res, ex'⟩
        rw [hb] at h
        cases res with
        | ok w => exact absurd h (by simp)
        | error e' =>
            simp only [Prod.mk.injEq, Except.error.injEq] at h
            exact h.2.1.symm

theorem vc_after_completeOne {now id j : Nat} {w w' : Store} (hne : j ≠ id)
    (h : completeOne now id w = .ok w') :
    validComplete j w' = validComplete j w := by
  unfold completeOne at h
  split at h
  · simp only [Except.ok.injEq] at h
    subst h
    unfold validComplete
    apply any_map_of_pres
    intro r
    by_cases hc : (r.id == id && r.status == "pending") = true
    · rw [if_pos hc]
      have hid : r.id = id := by
        have := (Bool.and_eq_true _ _).mp hc
        exact beq_iff_eq.mp this.1
      have h1 : (r.id == j) = false :=
        beq_eq_false_iff_ne.mpr (by rw [hid]; exact fun hh => hne hh.symm)
      show ((completeRow now r).id == j && _) = _
      have h2 : ((completeRow now r).id == j) = false := h1
      rw [h1, h2, Bool.false_and, Bool.false_and]
    · rw [if_neg hc]
  · exact absurd h (by simp)

theorem vd_after_deleteOne {id j : Nat} {w w' : Store} (hne : j ≠ id)
    (h : deleteOne id w = .ok w') :
    validDelete j w' = validDelete j w := by
  unfold deleteOne at h
  split at h
  · simp only [Except.ok.injEq] at h
    subst h
    unfold validDelete
    rw [Bool.eq_iff_iff, List.any_eq_true, List.any_eq_true]
    constructor
    · rintro ⟨r, hr, hp⟩
      exact ⟨r, (List.mem_filter.mp hr).1, hp⟩
    · rintro ⟨r, hr, hp⟩
      refine ⟨r, List.mem_filter.mpr ⟨hr, ?_⟩, hp⟩
      have hid : r.id = j := beq_iff_eq.mp hp
      have hf : (r.id == id) = false :=
        beq_eq_false_iff_ne.mpr (by rw [hid]; exact hne)
      show (!(r.id == id)) = true
      rw [hf]
      rfl
  · exact absurd h (by simp)

theorem bcLoop_invalid {now : Nat} :
    ∀ (ids : List Nat) (i : Nat) (w : Store) (ex bad : Nat),
    bad ∈ ids → validComplete bad w = false →
    ∃ e ex', bcLoop ctxNone now ids i w ex = (.error e, ex') := by
  intro ids
  induction ids with
  | nil => intro i w ex bad hmem; exact absurd hmem (by simp)
  | cons id rest ih =>
      intro i w ex bad hmem hbad
      unfold bcLoop
      rw [ctxNone_fired]
      simp only [Bool.false_eq_true, if_false]
      cases hco : completeOne now id w with
      | error e => exact ⟨e, ex + 1, rfl⟩
      | ok w' =>
          rcases List.mem_cons.mp hmem with hb | hb
          · exfalso
            subst hb
            unfold completeOne at hco
            rw [hbad] at hco
            exact absurd hco (by simp)
          · have hne : bad ≠ id := by
              rintro rfl
              unfold completeOne at hco
              rw [hbad] at hco
              exact absurd hco (by simp)
            have hbad' : validComplete bad w' = false := by
              rw [vc_after_completeOne hne hco, hbad]
            exact ih (i + 1) w' (ex + 1) bad hb hbad'

theorem bdLoop_invalid :
    ∀ (ids : List Nat) (i : Nat) (w : Store) (ex bad : Nat),
    bad ∈ ids → validDelete bad w = false →
    ∃ e ex', bdLoop ctxNone ids i w ex = (.error e, ex') := by
  intro ids
  induction ids with
  | nil => intro i w ex bad hmem; exact absurd hmem (by simp)
  | cons id rest ih =>
      intro i w ex bad hmem hbad
      unfold bdLoop
      rw [ctxNone_fired]
      simp only [Bool.false_eq_true, if_false]
      cases hco : deleteOne id w with
      | error e => exact ⟨e, ex + 1, rfl⟩
      | ok w' =>
          rcases List.mem_cons.mp hmem with hb | hb
          · exfalso
            subst hb
            unfold deleteOne at hco
            rw [hbad] at hco
            exact absurd hco (by simp)
          · have hne : bad ≠ id := by
              rintro rfl
              unfold deleteOne at hco
              rw [hbad] at hco
              exact absurd hco (by simp)
            have hbad' : validDelete bad w' = false := by
              rw [vd_after_deleteOne hne hco, hbad]
            exact ih (i + 1) w' (ex + 1) bad hb hbad'

/-- C3: the all-or-nothing batches are atomic — (a) whenever a batch
complete or batch delete returns an error (per-item failure,
cancellation, or input validation), the store is exactly as before the
call, so re-fetching every id shows each row unchanged; and (b) whenever
some id in the list is invalid (missing, or not pending for a complete),
the whole call does return such a failure. -/
theorem batch_all_or_nothing_atomic :
    (∀ (ctx : Ctx) (now : Nat) (ids : List Nat) (s s' : Store) (e : Err)
        (ex : Nat),
        batchCompleteTodosContext ctx now ids s = (.error e, s', ex) →
        s' = s) ∧
    (∀ (ctx : Ctx) (ids : List Nat) (s s' : Store) (e : Err) (ex : Nat),
        batchDeleteTodosContext ctx ids s = (.error e, s', ex) → s' = s) ∧
    (∀ (now : Nat) (ids : List Nat) (s : Store),
        (∃ bad ∈ ids, validComplete bad s = false) →
        ∃ e ex, batchCompleteTodosContext ctxNone now ids s =
          (.error e, s, ex)) ∧
    (∀ (ids : List Nat) (s : Store),
        (∃ bad ∈ ids, validDelete bad s = false) →
        ∃ e ex, batchDeleteTodosContext ctxNone ids s = (.error e, s, ex)) := by
  refine ⟨fun _ _ _ _ _ _ _ h => bc_error_rollback h,
          fun _ _ _ _ _ _ h => bd_error_rollback h, ?_, ?_⟩
  · intro now ids s ⟨bad, hmem, hbad⟩
    have hne : ids.isEmpty = false := by
      cases ids with
      | nil => exact absurd hmem (by simp)
      | cons a l => rfl
    by_cases hlen : ids.length > 100
    · refine ⟨.batchTooLarge ids.length, 0, ?_⟩
      unfold batchCompleteTodosContext
      rw [hne]
      simp only [Bool.false_eq_true, if_false]
      rw [if_pos hlen]
    · obtain ⟨e, ex', hloop⟩ := bcLoop_invalid ids 0 s 1 bad hmem hbad
      refine ⟨e, ex', ?_⟩
      unfold batchCompleteTodosContext
      rw [hne]
      simp only [Bool.false_eq_true, if_false]
      rw [if_neg hlen, ctxNone_fired]
      simp only [Bool.false_eq_true, if_false]
      rw [hloop]
  · intro ids s ⟨bad, hmem, hbad⟩
    have hne : ids.isEmpty = false := by
      cases ids with
      | nil => exact absurd hmem (by simp)
      | cons a l => rfl
    by_cases hlen : ids.length > 100
    · refine ⟨.batchTooLarge ids.length, 0, ?_⟩
      unfold batchDeleteTodosContext
      rw [hne]
      simp only [Bool.false_eq_true, if_false]
      rw [if_pos hlen]
    · obtain ⟨e, ex', hloop⟩ := bdLoop_invalid ids 0 s 1 bad hmem hbad
      refine ⟨e, ex', ?_⟩
      unfold batchDeleteTodosContext
      rw [hne]
      simp only [Bool.false_eq_true, if_false]
      rw [if_neg hlen, ctxNone_fired]
      simp only [Bool.false_eq_true, if_false]
      rw [hloop]

/-- A one-pending-row store used to witness the batch claims. -/
def onePendingStore : Store :=
  ⟨[{ id := 1, version := 1, title := "Buy milk", description := "",
      status := "pending", dueDate := .null, createdAt := 10,
      updatedAt := 10, completedAt := .null }], 2⟩

/-- Concrete instance of C3: batching ids [1, 99] where 99 is missing
fails and leaves the one-row store untouched, for both mutations. -/
theorem batch_all_or_nothing_atomic_witness :
    ((batchCompleteTodosContext ctxNone 40 [1, 99] onePendingStore).2.1
        = onePendingStore) ∧
    ((batchDeleteTodosContext ctxNone [1, 99] onePendingStore).2.1
        = onePendingStore) ∧
    (∃ e ex, batchCompleteTodosContext ctxNone 40 [1, 99] onePendingStore =
        (.error e, onePendingStore, ex)) ∧
    (∃ e ex, batchDeleteTodosContext ctxNone [1, 99] onePendingStore =
        (.error e, onePendingStore, ex)) :=
  ⟨batch_all_or_nothing_atomic.1 ctxNone 40 [1, 99] onePendingStore
      onePendingStore (.itemFailed 99) 3 (by rfl),
   batch_all_or_nothing_atomic.2.1 ctxNone [1, 99] onePendingStore
      onePendingStore (.itemFailed 99) 3 (by rfl),
   batch_all_or_nothing_atomic.2.2.1 40 [1, 99] onePendingStore
      ⟨99, by decide, by decide⟩,
   batch_all_or_nothing_atomic.2.2.2 [1, 99] onePendingStore
      ⟨99, by decide, by decide⟩⟩

/-! ### Claim C4 — partial-success batches -/

theorem validComplete_eq_rowsOf (id : Nat) (s : Store) :
    validComplete id s = (rowsOf s id).any (fun r => r.status == "pending") := by
  unfold validComplete rowsOf
  rw [← any_by_id]

theorem mutatedComplete_eq_rowsOf (id : Nat) (s : Store) :
    mutatedComplete id s =
      ((rowsOf s id).any (fun r => r.status == "completed") &&
       !((rowsOf s id).any (fun r => r.status == "pending"))) := by
  unfold mutatedComplete rowsOf
  rw [← any_by_id, ← any_by_id]

theorem any_id_eq (l : List Row) (id : Nat) :
    l.any (fun r => r.id == id) =
      (l.filter (fun r => r.id == id)).any (fun _ => true) := by
  induction l with
  | nil => rfl
  | cons x xs ih =>
      rw [List.any_cons, List.filter_cons]
      by_cases hx : (x.id == id) = true
      · rw [if_pos hx, hx, List.any_cons]
        rfl
      · rw [if_neg (by simpa using hx)]
        simp only [Bool.not_eq_true] at hx
        rw [hx, Bool.false_or, ih]

theorem validDelete_eq_rowsOf (id : Nat) (s : Store) :
    validDelete id s = (rowsOf s id).any (fun _ => true) := by
  unfold validDelete rowsOf
  rw [← any_id_eq]

theorem mutatedDelete_eq_rowsOf (id : Nat) (s : Store) :
    mutatedDelete id s = !((rowsOf s id).any (fun _ => true)) := by
  unfold mutatedDelete
  rw [← validDelete_eq_rowsOf]
  rfl

theorem vc_congr {a b : Store} {id : Nat} (h : rowsOf a id = rowsOf b id) :
    validComplete id a = validComplete id b := by
  rw [validComplete_eq_rowsOf, validComplete_eq_rowsOf, h]

theorem mc_congr {a b : Store} {id : Nat} (h : rowsOf a id = rowsOf b id) :
    mutatedComplete id a = mutatedComplete id b := by
  rw [mutatedComplete_eq_rowsOf, mutatedComplete_eq_rowsOf, h]

theorem vd_congr {a b : Store} {id : Nat} (h : rowsOf a id = rowsOf b id) :
    validDelete id a = validDelete id b := by
  rw [validDelete_eq_rowsOf, validDelete_eq_rowsOf, h]

theorem md_congr {a b : Store} {id : Nat} (h : rowsOf a id = rowsOf b id) :
    mutatedDelete id a = mutatedDelete id b := by
  rw [mutatedDelete_eq_rowsOf, mutatedDelete_eq_rowsOf, h]

theorem rowsOf_completeOne {now id j : Nat} {w w' : Store} (hne : j ≠ id)
    (h : completeOne now id w = .ok w') : rowsOf w' j = rowsOf w j := by
  unfold completeOne at h
  split at h
  · simp only [Except.ok.injEq] at h
    subst h
    unfold rowsOf
    show ((w.rows.map _).filter _) = _
    have hpres : ∀ r : Row,
        (((if r.id == id && r.status == "pending"
           then completeRow now r else r).id == j)) = (r.id == j) := by
      intro r
      by_cases hc : (r.id == id && r.status == "pending") = true
      · rw [if_pos hc]; rfl
      · rw [if_neg hc]
    rw [filter_map_of_pres hpres]
    have hid2 : ∀ r ∈ w.rows.filter (fun r => r.id == j),
        (if r.id == id && r.status == "pending"
         then completeRow now r else r) = r := by
      intro r hr
      have hj : (r.id == j) = true := (List.mem_filter.mp hr).2
      have hji : r.id = j := beq_iff_eq.mp hj
      have : (r.id == id) = false :=
        beq_eq_false_iff_ne.mpr (by rw [hji]; exact hne)
      rw [if_neg (by rw [this, Bool.false_and]; simp)]
    rw [List.map_congr_left hid2]
    exact List.map_id _
  · exact absurd h (by simp)

theorem rowsOf_deleteOne {id j : Nat} {w w' : Store} (hne : j ≠ id)
    (h : deleteOne id w = .ok w') : rowsOf w' j = rowsOf w j := by
  unfold deleteOne at h
  split at h
  · simp only [Except.ok.injEq] at h
    subst h
    unfold rowsOf
    show ((w.rows.filter _).filter _) = _
    rw [List.filter_filter]
    apply List.filter_congr
    intro r hr
    by_cases hj : (r.id == j) = true
    · have hji : r.id = j := beq_iff_eq.mp hj
      have hf : (r.id == id) = false :=
        beq_eq_false_iff_ne.mpr (by rw [hji]; exact hne)
      simp [hj, hf]
    · simp only [Bool.not_eq_true] at hj
      simp [hj]
  · exact absurd h (by simp)

theorem completeOne_error_of_invalid {now id : Nat} {w : Store}
    (h : validComplete id w = false) :
    completeOne now id w = .error (.itemFailed id) := by
  unfold completeOne
  rw [h]
  rfl

theorem deleteOne_error_of_invalid {id : Nat} {w : Store}
    (h : validDelete id w = false) :
    deleteOne id w = .error (.itemFailed id) := by
  unfold deleteOne
  rw [h]
  rfl

theorem completeOne_ok_of_valid {now id : Nat} {w : Store}
    (h : validComplete id w = true) :
    ∃ w', completeOne now id w = .ok w' ∧ mutatedComplete id w' = true ∧
      ∀ j, j ≠ id → rowsOf w' j = rowsOf w j := by
  have hco : completeOne now id w =
      .ok ⟨w.rows.map (fun r =>
            if r.id == id && r.status == "pending" then completeRow now r
            else r), w.nextId⟩ := by
    unfold completeOne
    rw [h]
    rfl
  refine ⟨_, hco, ?_, fun j hne => rowsOf_completeOne hne hco⟩
  · unfold mutatedComplete
    have h1 : ((w.rows.map (fun r =>
        if r.id == id && r.status == "pending" then completeRow now r
        else r)).any (fun r => r.id == id && r.status == "completed")) = true := by
      rw [List.any_eq_true]
      obtain ⟨r, hr, hp⟩ := List.any_eq_true.mp h
      have hc : (r.id == id && r.status == "pending") = true := hp
      refine ⟨completeRow now r, ?_, ?_⟩
      · have hmem := List.mem_map_of_mem (fun r =>
          if r.id == id && r.status == "pending" then completeRow now r
          else r) hr
        have hmem' : (if r.id == id && r.status == "pending"
            then completeRow now r else r) ∈ w.rows.map (fun r =>
            if r.id == id && r.status == "pending" then completeRow now r
            else r) := hmem
        rw [if_pos hc] at hmem'
        exact hmem'
      · have hid : (r.id == id) = true := ((Bool.and_eq_true _ _).mp hc).1
        show ((completeRow now r).id == id && _) = true
        have h2 : ((completeRow now r).id == id) = true := hid
        rw [h2, Bool.true_and]
        rfl
    have h2 : ((w.rows.map (fun r =>
        if r.id == id && r.status == "pending" then completeRow now r
        else r)).any (fun r => r.id == id && r.status == "pending")) = false := by
      rw [List.any_map]
      apply any_eq_false_of
      intro r hr
      by_cases hc : (r.id == id && r.status == "pending") = true
      · show ((if r.id == id && r.status == "pending"
              then completeRow now r else r).id == id &&
             (if r.id == id && r.status == "pending"
              then completeRow now r else r).status == "pending") = false
        rw [if_pos hc]
        show (_ && (("completed" : String) == "pending")) = false
        rw [Bool.and_eq_false_iff]
        right
        rfl
      · show ((if r.id == id && r.status == "pending"
              then completeRow now r else r).id == id &&
             (if r.id == id && r.status == "pending"
              then completeRow now r else r).status == "pending") = false
        rw [if_neg hc]
        simpa using hc
    dsimp only
    rw [h1, h2]
    rfl

theorem deleteOne_ok_of_valid {id : Nat} {w : Store}
    (h : validDelete id w = true) :
    ∃ w', deleteOne id w = .ok w' ∧ mutatedDelete id w' = true ∧
      ∀ j, j ≠ id → rowsOf w' j = rowsOf w j := by
  have hco : deleteOne id w =
      .ok ⟨w.rows.filter (fun r => !(r.id == id)), w.nextId⟩ := by
    unfold deleteOne
    rw [h]
    rfl
  refine ⟨_, hco, ?_, fun j hne => rowsOf_deleteOne hne hco⟩
  · unfold mutatedDelete
    have h1 : ((w.rows.filter (fun r => !(r.id == id))).any
        (fun r => r.id == id)) = false := by
      apply any_eq_false_of
      intro r hr
      have hq := (List.mem_filter.mp hr).2
      show (r.id == id) = false
      cases hb : (r.id == id) with
      | false => rfl
      | true => rw [hb] at hq; exact absurd hq (by simp)
    dsimp only
    rw [h1]
    rfl

theorem pcLoop_spec {now : Nat} :
    ∀ (ids : List Nat) (i : Nat) (w : Store) (acc : BatchResult) (ex : Nat),
    ids.Nodup →
    ∃ res w' ex',
      pcLoop ctxNone now ids i w acc ex = (.ok res, w', ex') ∧
      res.successCount = acc.successCount +
        (ids.filter (fun id => validComplete id w)).length ∧
      res.failedCount = acc.failedCount +
        (ids.filter (fun id => !(validComplete id w))).length ∧
      res.errors = acc.errors ++
        (ids.filter (fun id => !(validComplete id w))).map
          (fun id => BatchError.mk id completeFailMsg) ∧
      (∀ id ∈ ids, validComplete id w = true → mutatedComplete id w' = true) ∧
      (∀ j, j ∉ ids → rowsOf w' j = rowsOf w j) := by
  intro ids
  induction ids with
  | nil =>
      intro i w acc ex _
      exact ⟨acc, w, ex, rfl, by simp, by simp, by simp, by simp,
        fun j _ => rfl⟩
  | cons id rest ih =>
      intro i w acc ex hnd
      obtain ⟨hnotin, hndr⟩ := List.nodup_cons.mp hnd
      have hresteq : ∀ x ∈ rest, x ≠ id := fun x hx heq => hnotin (heq ▸ hx)
      by_cases hv : validComplete id w = true
      · obtain ⟨w1, hco, hmc, hpres⟩ := completeOne_ok_of_valid hv
        have hvcong : ∀ x ∈ rest, validComplete x w1 = validComplete x w :=
          fun x hx => vc_after_completeOne (hresteq x hx) hco
        have hfeq1 : rest.filter (fun x => validComplete x w1) =
            rest.filter (fun x => validComplete x w) :=
          List.filter_congr hvcong
        have hfeq2 : rest.filter (fun x => !(validComplete x w1)) =
            rest.filter (fun x => !(validComplete x w)) :=
          List.filter_congr (fun x hx => by
            show (!(validComplete x w1)) = (!(validComplete x w))
            rw [hvcong x hx])
        obtain ⟨res, w', ex', heq, hsc, hfc, herr, hmut, hpre⟩ :=
          ih (i + 1) w1 { acc with successCount := acc.successCount + 1 }
            (ex + 1) hndr
        refine ⟨res, w', ex', ?_, ?_, ?_, ?_, ?_, ?_⟩
        · unfold pcLoop
          rw [ctxNone_fired]
          simp only [Bool.false_eq_true, if_false]
          rw [hco]
          exact heq
        · rw [hsc, hfeq1, List.filter_cons, if_pos hv, List.length_cons]
          dsimp only
          omega
        · rw [hfc, hfeq2, List.filter_cons,
            if_neg (by rw [hv]; simp)]
        · rw [herr, hfeq2, List.filter_cons,
            if_neg (by rw [hv]; simp)]
        · intro x hx hvx
          rcases List.mem_cons.mp hx with hx | hx
          · subst hx
            rw [← mc_congr (hpre x hnotin)] at hmc
            exact hmc
          · exact hmut x hx (by rw [hvcong x hx]; exact hvx)
        · intro j hj
          have hj1 : j ≠ id := fun heq => hj (heq ▸ List.mem_cons_self id rest)
          have hj2 : j ∉ rest := fun hm => hj (List.mem_cons_of_mem id hm)
          rw [hpre j hj2, hpres j hj1]
      · have hv' : validComplete id w = false := by
          simpa using hv
        have hco := @completeOne_error_of_invalid now id w hv'
        obtain ⟨res, w', ex', heq, hsc, hfc, herr, hmut, hpre⟩ :=
          ih (i + 1) w
            { acc with
              failedCount := acc.failedCount + 1
              errors := acc.errors ++ [⟨id, completeFailMsg⟩] }
            (ex + 1) hndr
        refine ⟨res, w', ex', ?_, ?_, ?_, ?_, ?_, ?_⟩
        · unfold pcLoop
          rw [ctxNone_fired]
          simp only [Bool.false_eq_true, if_false]
          rw [hco]
          exact heq
        · rw [hsc, List.filter_cons, if_neg (by rw [hv']; simp)]
        · rw [hfc, List.filter_cons, if_pos (by rw [hv']; rfl),
            List.length_cons]
          dsimp only
          omega
        · rw [herr, List.filter_cons, if_pos (by rw [hv']; rfl),
            List.map_cons]
          dsimp only
          rw [List.append_assoc]
          rfl
        · intro x hx hvx
          rcases List.mem_cons.mp hx with hx | hx
          · subst hx
            exact absurd hvx (by rw [hv']; simp)
          · exact hmut x hx hvx
        · intro j hj
          exact hpre j (fun hm => hj (List.mem_cons_of_mem id hm))

theorem pdLoop_spec :
    ∀ (ids : List Nat) (i : Nat) (w : Store) (acc : BatchResult) (ex : Nat),
    ids.Nodup →
    ∃ res w' ex',
      pdLoop ctxNone ids i w acc ex = (.ok res, w', ex') ∧
      res.successCount = acc.successCount +
        (ids.filter (fun id => validDelete id w)).length ∧
      res.failedCount = acc.failedCount +
        (ids.filter (fun id => !(validDelete id w))).length ∧
      res.errors = acc.errors ++
        (ids.filter (fun id => !(validDelete id w))).map
          (fun id => BatchError.mk id deleteFailMsg) ∧
      (∀ id ∈ ids, validDelete id w = true → mutatedDelete id w' = true) ∧
      (∀ j, j ∉ ids → rowsOf w' j = rowsOf w j) := by
  intro ids
  induction ids with
  | nil =>
      intro i w acc ex _
      exact ⟨acc, w, ex, rfl, by simp, by simp, by simp, by simp,
        fun j _ => rfl⟩
  | cons id rest ih =>
      intro i w acc ex hnd
      obtain ⟨hnotin, hndr⟩ := List.nodup_cons.mp hnd
      have hresteq : ∀ x ∈ rest, x ≠ id := fun x hx heq => hnotin (heq ▸ hx)
      by_cases hv : validDelete id w = true
      · obtain ⟨w1, hco, hmc, hpres⟩ := deleteOne_ok_of_valid hv
        have hvcong : ∀ x ∈ rest, validDelete x w1 = validDelete x w :=
          fun x hx => vd_after_deleteOne (hresteq x hx) hco
        have hfeq1 : rest.filter (fun x => validDelete x w1) =
            rest.filter (fun x => validDelete x w) :=
          List.filter_congr hvcong
        have hfeq2 : rest.filter (fun x => !(validDelete x w1)) =
            rest.filter (fun x => !(validDelete x w)) :=
          List.filter_congr (fun x hx => by
            show (!(validDelete x w1)) = (!(validDelete x w))
            rw [hvcong x hx])
        obtain ⟨res, w', ex', heq, hsc, hfc, herr, hmut, hpre⟩ :=
          ih (i + 1) w1 { acc with successCount := acc.successCount + 1 }
            (ex + 1) hndr
        refine ⟨res, w', ex', ?_, ?_, ?_, ?_, ?_, ?_⟩
        · unfold pdLoop
          rw [ctxNone_fired]
          simp only [Bool.false_eq_true, if_false]
          rw [hco]
          exact heq
        · rw [hsc, hfeq1, List.filter_cons, if_pos hv, List.length_cons]
          dsimp only
          omega
        · rw [hfc, hfeq2, List.filter_cons,
            if_neg (by rw [hv]; simp)]
        · rw [herr, hfeq2, List.filter_cons,
            if_neg (by rw [hv]; simp)]
        · intro x hx hvx
          rcases List.mem_cons.mp hx with hx | hx
          · subst hx
            rw [← md_congr (hpre x hnotin)] at hmc
            exact hmc
          · exact hmut x hx (by rw [hvcong x hx]; exact hvx)
        · intro j hj
          have hj1 : j ≠ id := fun heq => hj (heq ▸ List.mem_cons_self id rest)
          have hj2 : j ∉ rest := fun hm => hj (List.mem_cons_of_mem id hm)
          rw [hpre j hj2, hpres j hj1]
      · have hv' : validDelete id w = false := by
          simpa using hv
        have hco := deleteOne_error_of_invalid hv'
        obtain ⟨res, w', ex', heq, hsc, hfc, herr, hmut, hpre⟩ :=
          ih (i + 1) w
            { acc with
              failedCount := acc.failedCount + 1
              errors := acc.errors ++ [⟨id, deleteFailMsg⟩] }
            (ex + 1) hndr
        refine ⟨res, w', ex', ?_, ?_, ?_, ?_, ?_, ?_⟩
        · unfold pdLoop
          rw [ctxNone_fired]
          simp only [Bool.false_eq_true, if_false]
          rw [hco]
          exact heq
        · rw [hsc, List.filter_cons, if_neg (by rw [hv']; simp)]
        · rw [hfc, List.filter_cons, if_pos (by rw [hv']; rfl),
            List.length_cons]
          dsimp only
          omega
        · rw [herr, List.filter_cons, if_pos (by rw [hv']; rfl),
            List.map_cons]
          dsimp only
          rw [List.append_assoc]
          rfl
        · intro x hx hvx
          rcases List.mem_cons.mp hx with hx | hx
          · subst hx
            exact absurd hvx (by rw [hv']; simp)
          · exact hmut x hx hvx
        · intro j hj
          exact hpre j (fun hm => hj (List.mem_cons_of_mem id hm))

theorem bcp_spec (now : Nat) (ids : List Nat) (s : Store)
    (hnd : ids.Nodup) (hlen : ids.length ≤ 100) :
    ∃ res w' ex,
      batchCompleteTodosPartialContext ctxNone now ids s =
        (.ok res, w', ex) ∧
      res.successCount = (ids.filter (fun id => validComplete id s)).length ∧
      res.failedCount =
        (ids.filter (fun id => !(validComplete id s))).length ∧
      res.errors = (ids.filter (fun id => !(validComplete id s))).map
        (fun id => BatchError.mk id completeFailMsg) ∧
      ∀ id ∈ ids, validComplete id s = true →
        mutatedComplete id w' = true := by
  cases ids with
  | nil => exact ⟨{}, s, 0, rfl, rfl, rfl, rfl, by simp⟩
  | cons a l =>
      obtain ⟨res, w', ex', heq, hsc, hfc, herr, hmut, hpre⟩ :=
        pcLoop_spec (a :: l) 0 s {} 1 hnd
      refine ⟨res, w', ex' + 1, ?_, ?_, ?_, ?_, hmut⟩
      · unfold batchCompleteTodosPartialContext
        rw [if_neg (by simp), if_neg (by omega), ctxNone_fired]
        simp only [Bool.false_eq_true, if_false]
        rw [heq]
      · rw [hsc]
        dsimp only
        omega
      · rw [hfc]
        dsimp only
        omega
      · rw [herr]
        dsimp only
        rw [List.nil_append]

theorem bdp_spec (ids : List Nat) (s : Store)
    (hnd : ids.Nodup) (hlen : ids.length ≤ 100) :
    ∃ res w' ex,
      batchDeleteTodosPartialContext ctxNone ids s = (.ok res, w', ex) ∧
      res.successCount = (ids.filter (fun id => validDelete id s)).length ∧
      res.failedCount = (ids.filter (fun id => !(validDelete id s))).length ∧
      res.errors = (ids.filter (fun id => !(validDelete id s))).map
        (fun id => BatchError.mk id deleteFailMsg) ∧
      ∀ id ∈ ids, validDelete id s = true → mutatedDelete id w' = true := by
  cases ids with
  | nil => exact ⟨{}, s, 0, rfl, rfl, rfl, rfl, by simp⟩
  | cons a l =>
      obtain ⟨res, w', ex', heq, hsc, hfc, herr, hmut, hpre⟩ :=
        pdLoop_spec (a :: l) 0 s {} 1 hnd
      refine ⟨res, w', ex' + 1, ?_, ?_, ?_, ?_, hmut⟩
      · unfold batchDeleteTodosPartialContext
        rw [if_neg (by simp), if_neg (by omega), ctxNone_fired]
        simp only [Bool.false_eq_true, if_false]
        rw [heq]
      · rw [hsc]
        dsimp only
        omega
      · rw [hfc]
        dsimp only
        omega
      · rw [herr]
        dsimp only
        rw [List.nil_append]

/-- C4: for a partial-success batch (complete or delete) over distinct
ids within the size cap, the call commits successfully; every valid id
is mutated and the mutation persists in the committed store; every
invalid id is recorded as an (id, reason) failure while iteration
continues; and the result's failure count equals exactly the number of
invalid ids (the success count likewise the number of valid ids). -/
theorem batch_partial_success_spec :
    (∀ (now : Nat) (ids : List Nat) (s : Store),
      ids.Nodup → ids.length ≤ 100 →
      ∃ res w' ex,
        batchCompleteTodosPartialContext ctxNone now ids s =
          (.ok res, w', ex) ∧
        res.successCount =
          (ids.filter (fun id => validComplete id s)).length ∧
        res.failedCount =
          (ids.filter (fun id => !(validComplete id s))).length ∧
        res.errors = (ids.filter (fun id => !(validComplete id s))).map
          (fun id => BatchError.mk id completeFailMsg) ∧
        ∀ id ∈ ids, validComplete id s = true →
          mutatedComplete id w' = true) ∧
    (∀ (ids : List Nat) (s : Store),
      ids.Nodup → ids.length ≤ 100 →
      ∃ res w' ex,
        batchDeleteTodosPartialContext ctxNone ids s = (.ok res, w', ex) ∧
        res.successCount =
          (ids.filter (fun id => validDelete id s)).length ∧
        res.failedCount =
          (ids.filter (fun id => !(validDelete id s))).length ∧
        res.errors = (ids.filter (fun id => !(validDelete id s))).map
          (fun id => BatchError.mk id deleteFailMsg) ∧
        ∀ id ∈ ids, validDelete id s = true →
          mutatedDelete id w' = true) :=
  ⟨fun now ids s h1 h2 => bcp_spec now ids s h1 h2,
   fun ids s h1 h2 => bdp_spec ids s h1 h2⟩

/-- Concrete instance of C4: batching [1, 99] against the one-pending-row
store mutates the valid id 1, records 99 as the single failure, and
reports failure count 1 for both partial-success mutations. -/
theorem batch_partial_success_spec_witness :
    (∃ res w' ex,
      batchCompleteTodosPartialContext ctxNone 40 [1, 99] onePendingStore =
        (.ok res, w', ex) ∧
      res.successCount =
        ([1, 99].filter (fun id => validComplete id onePendingStore)).length ∧
      res.failedCount =
        ([1, 99].filter
          (fun id => !(validComplete id onePendingStore))).length ∧
      res.errors = ([1, 99].filter
          (fun id => !(validComplete id onePendingStore))).map
        (fun id => BatchError.mk id completeFailMsg) ∧
      ∀ id ∈ [1, 99], validComplete id onePendingStore = true →
        mutatedComplete id w' = true) ∧
    (∃ res w' ex,
      batchDeleteTodosPartialContext ctxNone [1, 99] onePendingStore =
        (.ok res, w', ex) ∧
      res.successCount =
        ([1, 99].filter (fun id => validDelete id onePendingStore)).length ∧
      res.failedCount =
        ([1, 99].filter
          (fun id => !(validDelete id onePendingStore))).length ∧
      res.errors = ([1, 99].filter
          (fun id => !(validDelete id onePendingStore))).map
        (fun id => BatchError.mk id deleteFailMsg) ∧
      ∀ id ∈ [1, 99], validDelete id onePendingStore = true →
        mutatedDelete id w' = true) :=
  ⟨batch_partial_success_spec.1 40 [1, 99] onePendingStore
      (by decide) (by decide),
   batch_partial_success_spec.2 [1, 99] onePendingStore
      (by decide) (by decide)⟩

/-! ### Claim C6 — cancellation checks -/

theorem bcLoop_cancel {now k : Nat} :
    ∀ (ids : List Nat) (i : Nat) (w : Store) (ex : Nat),
    i ≤ k → k - i < ids.length →
    ∃ e ex', bcLoop (ctxAt (k + 1)) now ids i w ex = (.error e, ex') ∧
      ex' ≤ ex + (k - i) := by
  intro ids
  induction ids with
  | nil => intro i w ex hik hlt; simp at hlt
  | cons id rest ih =>
      intro i w ex hik hlt
      unfold bcLoop
      by_cases hki : k ≤ i
      · have hf : ctxFired (ctxAt (k + 1)) (i + 1) = true := by
          unfold ctxFired ctxAt
          simp
          omega
        rw [hf, if_pos rfl]
        exact ⟨.canceled, ex, rfl, by omega⟩
      · have hf : ctxFired (ctxAt (k + 1)) (i + 1) = false := by
          unfold ctxFired ctxAt
          simp
          omega
        rw [hf]
        simp only [Bool.false_eq_true, if_false]
        cases hco : completeOne now id w with
        | error e => exact ⟨e, ex + 1, rfl, by omega⟩
        | ok w' =>
            obtain ⟨e, ex', heq, hle⟩ := ih (i + 1) w' (ex + 1)
              (by omega) (by simp at hlt ⊢; omega)
            exact ⟨e, ex', heq, by omega⟩

theorem bdLoop_cancel {k : Nat} :
    ∀ (ids : List Nat) (i : Nat) (w : Store) (ex : Nat),
    i ≤ k → k - i < ids.length →
    ∃ e ex', bdLoop (ctxAt (k + 1)) ids i w ex = (.error e, ex') ∧
      ex' ≤ ex + (k - i) := by
  intro ids
  induction ids with
  | nil => intro i w ex hik hlt; simp at hlt
  | cons id rest ih =>
      intro i w ex hik hlt
      unfold bdLoop
      by_cases hki : k ≤ i
      · have hf : ctxFired (ctxAt (k + 1)) (i + 1) = true := by
          unfold ctxFired ctxAt
          simp
          omega
        rw [hf, if_pos rfl]
        exact ⟨.canceled, ex, rfl, by omega⟩
      · have hf : ctxFired (ctxAt (k + 1)) (i + 1) = false := by
          unfold ctxFired ctxAt
          simp
          omega
        rw [hf]
        simp only [Bool.false_eq_true, if_false]
        cases hco : deleteOne id w with
        | error e => exact ⟨e, ex + 1, rfl, by omega⟩
        | ok w' =>
            obtain ⟨e, ex', heq, hle⟩ := ih (i + 1) w' (ex + 1)
              (by omega) (by simp at hlt ⊢; omega)
            exact ⟨e, ex', heq, by omega⟩

theorem pcLoop_cancel {now k : Nat} :
    ∀ (ids : List Nat) (i : Nat) (w : Store) (acc : BatchResult) (ex : Nat),
    i ≤ k → k - i < ids.length →
    ∃ e w'' ex', pcLoop (ctxAt (k + 1)) now ids i w acc ex =
      (.error e, w'', ex') ∧ ex' ≤ ex + (k - i) := by
  intro ids
  induction ids with
  | nil => intro i w acc ex hik hlt; simp at hlt
  | cons id rest ih =>
      intro i w acc ex hik hlt
      unfold pcLoop
      by_cases hki : k ≤ i
      · have hf : ctxFired (ctxAt (k + 1)) (i + 1) = true := by
          unfold ctxFired ctxAt
          simp
          omega
        rw [hf, if_pos rfl]
        exact ⟨.canceled, w, ex, rfl, by omega⟩
      · have hf : ctxFired (ctxAt (k + 1)) (i + 1) = false := by
          unfold ctxFired ctxAt
          simp
          omega
        rw [hf]
        simp only [Bool.false_eq_true, if_false]
        cases hco : completeOne now id w with
        | error e =>
            obtain ⟨e', w'', ex', heq, hle⟩ := ih (i + 1) w _ (ex + 1)
              (by omega) (by simp at hlt ⊢; omega)
            exact ⟨e', w'', ex', heq, by omega⟩
        | ok w' =>
            obtain ⟨e', w'', ex', heq, hle⟩ := ih (i + 1) w' _ (ex + 1)
              (by omega) (by simp at hlt ⊢; omega)
            exact ⟨e', w'', ex', heq, by omega⟩

theorem pdLoop_cancel {k : Nat} :
    ∀ (ids : List Nat) (i : Nat) (w : Store) (acc : BatchResult) (ex : Nat),
    i ≤ k → k - i < ids.length →
    ∃ e w'' ex', pdLoop (ctxAt (k + 1)) ids i w acc ex =
      (.error e, w'', ex') ∧ ex' ≤ ex + (k - i) := by
  intro ids
  induction ids with
  | nil => intro i w acc ex hik hlt; simp at hlt
  | cons id rest ih =>
      intro i w acc ex hik hlt
      unfold pdLoop
      by_cases hki : k ≤ i
      · have hf : ctxFired (ctxAt (k + 1)) (i + 1) = true := by
          unfold ctxFired ctxAt
          simp
          omega
        rw [hf, if_pos rfl]
        exact ⟨.canceled, w, ex, rfl, by omega⟩
      · have hf : ctxFired (ctxAt (k + 1)) (i + 1) = false := by
          unfold ctxFired ctxAt
          simp
          omega
        rw [hf]
        simp only [Bool.false_eq_true, if_false]
        cases hco : deleteOne id w with
        | error e =>
            obtain ⟨e', w'', ex', heq, hle⟩ := ih (i + 1) w _ (ex + 1)
              (by omega) (by simp at hlt ⊢; omega)
            exact ⟨e', w'', ex', heq, by omega⟩
        | ok w' =>
            obtain ⟨e', w'', ex', heq, hle⟩ := ih (i + 1) w' _ (ex + 1)
              (by omega) (by simp at hlt ⊢; omega)
            exact ⟨e', w'', ex', heq, by omega⟩

theorem listLoop_cancel {k : Nat} :
    ∀ (rows : List Row) (i : Nat), i ≤ k → k - i < rows.length →
    ∃ e, listLoop (ctxAt (k + 2)) rows i = .error e := by
  intro rows
  induction rows with
  | nil => intro i hik hlt; simp at hlt
  | cons r rest ih =>
      intro i hik hlt
      unfold listLoop
      by_cases hki : k ≤ i
      · have hf : ctxFired (ctxAt (k + 2)) (i + 2) = true := by
          unfold ctxFired ctxAt
          simp
          omega
        rw [hf, if_pos rfl]
        exact ⟨.canceled, rfl⟩
      · have hf : ctxFired (ctxAt (k + 2)) (i + 2) = false := by
          unfold ctxFired ctxAt
          simp
          omega
        rw [hf]
        simp only [Bool.false_eq_true, if_false]
        cases hd : decodeRow r with
        | error e => exact ⟨e, rfl⟩
        | ok t =>
            obtain ⟨e, heq⟩ := ih (i + 1)
              (by omega) (by simp at hlt ⊢; omega)
            rw [heq]
            exact ⟨e, rfl⟩

theorem list_isEmpty_false_of_ne {ids : List Nat} (h : ids ≠ []) :
    ids.isEmpty = false := by
  cases ids with
  | nil => exact absurd rfl h
  | cons a l => rfl

/-- C6 as frozen is refuted by a batch invoked on an empty id list: with
an already-expired token, `BatchCompleteTodosContext` returns success
(its empty-input validation short-circuits before the token is ever
consulted), not the Canceled outcome the claim promises for every
operation. -/
theorem canceled_empty_batch_returns_ok :
    batchCompleteTodosContext (ctxAt 0) 0 [] emptyStore =
      (.ok (), emptyStore, 0) ∧
    ((Except.ok () : Except Err Unit) ≠ .error .canceled) :=
  ⟨rfl, fun h => Except.noConfusion h⟩

/-- C6 (amended): every store, batch, and aggregate operation observes
the cancellation token before its first engine statement, so — except
for batch calls whose input validation short-circuits first (an empty id
list returns success, an oversized list returns the size failure, both
with zero engine traffic) — an operation invoked with an already-fired
token returns the Canceled outcome with zero engine statements and an
unchanged store; and the token is re-checked inside every per-item loop,
so a token firing before item k of a batch (or row k of a List scan)
halts the loop there: the call fails, the store is rolled back, and at
most 1 + k engine statements were issued. -/
theorem cancellation_checks :
    (∀ (ctx : Ctx) (t : Todo) (s : Store), ctxFired ctx 0 = true →
        createTodoContext ctx t s = (.error .canceled, s, 0)) ∧
    (∀ (ctx : Ctx) (now : Nat) (t : Todo) (s : Store),
        ctxFired ctx 0 = true →
        updateTodoContext ctx now t s = (.error .canceled, s, 0)) ∧
    (∀ (ctx : Ctx) (id : Nat) (s : Store), ctxFired ctx 0 = true →
        deleteTodoContext ctx id s = (.error .canceled, s, 0)) ∧
    (∀ (ctx : Ctx) (f : TodoFilter) (s : Store), ctxFired ctx 0 = true →
        listTodosContext ctx f s = (.error .canceled, 0)) ∧
    (∀ (ctx : Ctx) (now : Nat) (s : Store), ctxFired ctx 0 = true →
        getStatsContext ctx now s = (.error .canceled, 0)) ∧
    (∀ (ctx : Ctx) (now : Nat) (ids : List Nat) (s : Store), ids ≠ [] →
        ids.length ≤ 100 → ctxFired ctx 0 = true →
        batchCompleteTodosContext ctx now ids s =
          (.error .canceled, s, 0)) ∧
    (∀ (ctx : Ctx) (ids : List Nat) (s : Store), ids ≠ [] →
        ids.length ≤ 100 → ctxFired ctx 0 = true →
        batchDeleteTodosContext ctx ids s = (.error .canceled, s, 0)) ∧
    (∀ (ctx : Ctx) (now : Nat) (ids : List Nat) (s : Store), ids ≠ [] →
        ids.length ≤ 100 → ctxFired ctx 0 = true →
        batchCompleteTodosPartialContext ctx now ids s =
          (.error .canceled, s, 0)) ∧
    (∀ (ctx : Ctx) (ids : List Nat) (s : Store), ids ≠ [] →
        ids.length ≤ 100 → ctxFired ctx 0 = true →
        batchDeleteTodosPartialContext ctx ids s =
          (.error .canceled, s, 0)) ∧
    (∀ (now k : Nat) (ids : List Nat) (s : Store), ids.length ≤ 100 →
        k < ids.length →
        ∃ e ex, batchCompleteTodosContext (ctxAt (k + 1)) now ids s =
          (.error e, s, ex) ∧ ex ≤ 1 + k) ∧
    (∀ (k : Nat) (ids : List Nat) (s : Store), ids.length ≤ 100 →
        k < ids.length →
        ∃ e ex, batchDeleteTodosContext (ctxAt (k + 1)) ids s =
          (.error e, s, ex) ∧ ex ≤ 1 + k) ∧
    (∀ (now k : Nat) (ids : List Nat) (s : Store), ids.length ≤ 100 →
        k < ids.length →
        ∃ e ex, batchCompleteTodosPartialContext (ctxAt (k + 1)) now ids s =
          (.error e, s, ex) ∧ ex ≤ 1 + k) ∧
    (∀ (k : Nat) (ids : List Nat) (s : Store), ids.length ≤ 100 →
        k < ids.length →
        ∃ e ex, batchDeleteTodosPartialContext (ctxAt (k + 1)) ids s =
          (.error e, s, ex) ∧ ex ≤ 1 + k) ∧
    (∀ (f : TodoFilter) (s : Store) (k : Nat), k < (pageOf f s).length →
        ∃ e, listTodosContext (ctxAt (k + 2)) f s = (.error e, 2)) := by
  refine ⟨?_, ?_, ?_, ?_, ?_, ?_, ?_, ?_, ?_, ?_, ?_, ?_, ?_, ?_⟩
  · intro ctx t s hf
    unfold createTodoContext
    rw [hf, if_pos rfl]
  · intro ctx now t s hf
    unfold updateTodoContext
    rw [hf, if_pos rfl]
  · intro ctx id s hf
    unfold deleteTodoContext
    rw [hf, if_pos rfl]
  · intro ctx f s hf
    unfold listTodosContext
    rw [hf, if_pos rfl]
  · intro ctx now s hf
    unfold getStatsContext
    rw [hf, if_pos rfl]
  · intro ctx now ids s hne hlen hf
    unfold batchCompleteTodosContext
    rw [list_isEmpty_false_of_ne hne]
    simp only [Bool.false_eq_true, if_false]
    rw [if_neg (by omega), hf, if_pos rfl]
  · intro ctx ids s hne hlen hf
    unfold batchDeleteTodosContext
    rw [list_isEmpty_false_of_ne hne]
    simp only [Bool.false_eq_true, if_false]
    rw [if_neg (by omega), hf, if_pos rfl]
  · intro ctx now ids s hne hlen hf
    unfold batchCompleteTodosPartialContext
    rw [list_isEmpty_false_of_ne hne]
    simp only [Bool.false_eq_true, if_false]
    rw [if_neg (by omega), hf, if_pos rfl]
  · intro ctx ids s hne hlen hf
    unfold batchDeleteTodosPartialContext
    rw [list_isEmpty_false_of_ne hne]
    simp only [Bool.false_eq_true, if_false]
    rw [if_neg (by omega), hf, if_pos rfl]
  · intro now k ids s hlen hk
    have hne : ids ≠ [] := by
      cases ids with
      | nil => simp at hk
      | cons a l => simp
    have hf0 : ctxFired (ctxAt (k + 1)) 0 = false := by
      unfold ctxFired ctxAt
      simp
    obtain ⟨e, ex', heq, hle⟩ := bcLoop_cancel ids 0 s 1
      (Nat.zero_le k) (by omega)
    refine ⟨e, ex', ?_, by omega⟩
    unfold batchCompleteTodosContext
    rw [list_isEmpty_false_of_ne hne]
    simp only [Bool.false_eq_true, if_false]
    rw [if_neg (by omega), hf0]
    simp only [Bool.false_eq_true, if_false]
    rw [heq]
  · intro k ids s hlen hk
    have hne : ids ≠ [] := by
      cases ids with
      | nil => simp at hk
      | cons a l => simp
    have hf0 : ctxFired (ctxAt (k + 1)) 0 = false := by
      unfold ctxFired ctxAt
      simp
    obtain ⟨e, ex', heq, hle⟩ := bdLoop_cancel ids 0 s 1
      (Nat.zero_le k) (by omega)
    refine ⟨e, ex', ?_, by omega⟩
    unfold batchDeleteTodosContext
    rw [list_isEmpty_false_of_ne hne]
    simp only [Bool.false_eq_true, if_false]
    rw [if_neg (by omega), hf0]
    simp only [Bool.false_eq_true, if_false]
    rw [heq]
  · intro now k ids s hlen hk
    have hne : ids ≠ [] := by
      cases ids with
      | nil => simp at hk
      | cons a l => simp
    have hf0 : ctxFired (ctxAt (k + 1)) 0 = false := by
      unfold ctxFired ctxAt
      simp
    obtain ⟨e, w'', ex', heq, hle⟩ := pcLoop_cancel ids 0 s {} 1
      (Nat.zero_le k) (by omega)
    refine ⟨e, ex', ?_, by omega⟩
    unfold batchCompleteTodosPartialContext
    rw [list_isEmpty_false_of_ne hne]
    simp only [Bool.false_eq_true, if_false]
    rw [if_neg (by omega), hf0]
    simp only [Bool.false_eq_true, if_false]
    rw [heq]
  · intro k ids s hlen hk
    have hne : ids ≠ [] := by
      cases ids with
      | nil => simp at hk
      | cons a l => simp
    have hf0 : ctxFired (ctxAt (k + 1)) 0 = false := by
      unfold ctxFired ctxAt
      simp
    obtain ⟨e, w'', ex', heq, hle⟩ := pdLoop_cancel ids 0 s {} 1
      (Nat.zero_le k) (by omega)
    refine ⟨e, ex', ?_, by omega⟩
    unfold batchDeleteTodosPartialContext
    rw [list_isEmpty_false_of_ne hne]
    simp only [Bool.false_eq_true, if_false]
    rw [if_neg (by omega), hf0]
    simp only [Bool.false_eq_true, if_false]
    rw [heq]
  · intro f s k hk
    have hf0 : ctxFired (ctxAt (k + 2)) 0 = false := by
      unfold ctxFired ctxAt
      simp
    have hf1 : ctxFired (ctxAt (k + 2)) 1 = false := by
      unfold ctxFired ctxAt
      simp
    obtain ⟨e, heq⟩ := listLoop_cancel (pageOf f s) 0
      (Nat.zero_le k) (by omega)
    refine ⟨e, ?_⟩
    unfold listTodosContext
    rw [hf0]
    simp only [Bool.false_eq_true, if_false]
    rw [hf1]
    simp only [Bool.false_eq_true, if_false]
    rw [heq]

/-- Concrete instance of the amended C6: an already-expired token makes
every operation (with a non-empty, in-cap id list for the batches)
return Canceled with zero engine statements and an unchanged store, and
a token firing before item 0 cancels each batch after at most the
BeginTx statement. -/
theorem cancellation_checks_witness :
    createTodoContext (ctxAt 0) (newTodo "a" "" 0) emptyStore =
      (.error .canceled, emptyStore, 0) ∧
    updateTodoContext (ctxAt 0) 7 (newTodo "a" "" 0) emptyStore =
      (.error .canceled, emptyStore, 0) ∧
    deleteTodoContext (ctxAt 0) 1 emptyStore =
      (.error .canceled, emptyStore, 0) ∧
    listTodosContext (ctxAt 0) {} emptyStore = (.error .canceled, 0) ∧
    getStatsContext (ctxAt 0) 7 emptyStore = (.error .canceled, 0) ∧
    batchCompleteTodosContext (ctxAt 0) 7 [1] emptyStore =
      (.error .canceled, emptyStore, 0) ∧
    batchDeleteTodosContext (ctxAt 0) [1] emptyStore =
      (.error .canceled, emptyStore, 0) ∧
    batchCompleteTodosPartialContext (ctxAt 0) 7 [1] emptyStore =
      (.error .canceled, emptyStore, 0) ∧
    batchDeleteTodosPartialContext (ctxAt 0) [1] emptyStore =
      (.error .canceled, emptyStore, 0) ∧
    (∃ e ex, batchCompleteTodosContext (ctxAt (0 + 1)) 7 [1] onePendingStore =
      (.error e, onePendingStore, ex) ∧ ex ≤ 1 + 0) ∧
    (∃ e ex, batchDeleteTodosContext (ctxAt (0 + 1)) [1] onePendingStore =
      (.error e, onePendingStore, ex) ∧ ex ≤ 1 + 0) ∧
    (∃ e ex,
      batchCompleteTodosPartialContext (ctxAt (0 + 1)) 7 [1] onePendingStore =
        (.error e, onePendingStore, ex) ∧ ex ≤ 1 + 0) ∧
    (∃ e ex,
      batchDeleteTodosPartialContext (ctxAt (0 + 1)) [1] onePendingStore =
        (.error e, onePendingStore, ex) ∧ ex ≤ 1 + 0) ∧
    (∃ e, listTodosContext (ctxAt (0 + 2)) {} onePendingStore =
      (.error e, 2)) := by
  obtain ⟨h1, h2, h3, h4, h5, h6, h7, h8, h9, h10, h11, h12, h13, h14⟩ :=
    cancellation_checks
  exact ⟨h1 (ctxAt 0) (newTodo "a" "" 0) emptyStore (by decide),
    h2 (ctxAt 0) 7 (newTodo "a" "" 0) emptyStore (by decide),
    h3 (ctxAt 0) 1 emptyStore (by decide),
    h4 (ctxAt 0) {} emptyStore (by decide),
    h5 (ctxAt 0) 7 emptyStore (by decide),
    h6 (ctxAt 0) 7 [1] emptyStore (by decide) (by decide) (by decide),
    h7 (ctxAt 0) [1] emptyStore (by decide) (by decide) (by decide),
    h8 (ctxAt 0) 7 [1] emptyStore (by decide) (by decide) (by decide),
    h9 (ctxAt 0) [1] emptyStore (by decide) (by decide) (by decide),
    h10 7 0 [1] onePendingStore (by decide) (by decide),
    h11 0 [1] onePendingStore (by decide) (by decide),
    h12 7 0 [1] onePendingStore (by decide) (by decide),
    h13 0 [1] onePendingStore (by decide) (by decide),
    h14 {} onePendingStore 0 (by decide)⟩

/-! ### Claim C8 — completed_at mirrors status -/

/-- Whether a nullable stored value is present (non-NULL). -/
def cellPresent : Cell → Bool
  | .null => false
  | _ => true

/-- The invariant on one stored row: `completed_at` is present exactly
when the status is `completed`. -/
def rowInv (r : Row) : Bool :=
  cellPresent r.completedAt == (r.status == "completed")

/-- The invariant on a store. -/
def invariantOK (s : Store) : Bool := s.rows.all rowInv

/-- The invariant on an in-memory todo. -/
def todoInv (t : Todo) : Bool :=
  t.completedAt.isSome == (t.status == "completed")

/-- A PUT body whose status, when present, is one of the two legal
lifecycle states. -/
def goodStatus (req : UpdateReq) : Prop :=
  req.status = none ∨ req.status = some "pending" ∨
    req.status = some "completed"

/-- The stores reachable from the empty database through the public
operations — create (via `model.NewTodo`), the handler's update
pipeline, single delete, and the four batch mutations — under arbitrary
cancellation tokens, where every update request satisfies `good`. -/
inductive ReachVia (good : UpdateReq → Prop) : Store → Prop where
  | init : ReachVia good ⟨[], 1⟩
  | create (ctx : Ctx) (title description : String) (now : Nat)
      {s s' : Store} {res : Except Err Todo} {ex : Nat} :
      ReachVia good s →
      createTodoContext ctx (newTodo title description now) s =
        (res, s', ex) →
      ReachVia good s'
  | update (ctx : Ctx) (now id : Nat) (req : UpdateReq)
      {s s' : Store} {res : Except Err Todo} {ex : Nat} :
      ReachVia good s → good req →
      handlerUpdateTodo ctx now id req s = (res, s', ex) →
      ReachVia good s'
  | del (ctx : Ctx) (id : Nat) {s s' : Store} {res : Except Err Unit}
      {ex : Nat} :
      ReachVia good s →
      deleteTodoContext ctx id s = (res, s', ex) →
      ReachVia good s'
  | bcomplete (ctx : Ctx) (now : Nat) (ids : List Nat)
      {s s' : Store} {res : Except Err Unit} {ex : Nat} :
      ReachVia good s →
      batchCompleteTodosContext ctx now ids s = (res, s', ex) →
      ReachVia good s'
  | bdelete (ctx : Ctx) (ids : List Nat)
      {s s' : Store} {res : Except Err Unit} {ex : Nat} :
      ReachVia good s →
      batchDeleteTodosContext ctx ids s = (res, s', ex) →
      ReachVia good s'
  | bcompleteP (ctx : Ctx) (now : Nat) (ids : List Nat)
      {s s' : Store} {res : Except Err BatchResult} {ex : Nat} :
      ReachVia good s →
      batchCompleteTodosPartialContext ctx now ids s = (res, s', ex) →
      ReachVia good s'
  | bdeleteP (ctx : Ctx) (ids : List Nat)
      {s s' : Store} {res : Except Err BatchResult} {ex : Nat} :
      ReachVia good s →
      batchDeleteTodosPartialContext ctx ids s = (res, s', ex) →
      ReachVia good s'

theorem all_filter_of_all {l : List Row} {p q : Row → Bool}
    (h : l.all p = true) : (l.filter q).all p = true := by
  rw [List.all_eq_true] at h ⊢
  intro r hr
  exact h r (List.mem_filter.mp hr).1

theorem cellPresent_cellOfOpt (x : Option Nat) :
    cellPresent (cellOfOpt x) = x.isSome := by
  cases x <;> rfl

theorem create_preserves_inv {ctx : Ctx} {t : Todo}
    {s s' : Store} {res : Except Err Todo} {ex : Nat}
    (hp : t.status = "pending")
    (hinv : invariantOK s = true)
    (h : createTodoContext ctx t s = (res, s', ex)) :
    invariantOK s' = true := by
  unfold createTodoContext at h
  split at h
  · simp only [Prod.mk.injEq] at h
    rw [← h.2.1]
    exact hinv
  · simp only [Prod.mk.injEq] at h
    obtain ⟨-, hs, -⟩ := h
    rw [← hs]
    unfold invariantOK at hinv ⊢
    rw [List.all_append, hinv, Bool.true_and]
    show (rowInv _ && true) = true
    unfold rowInv
    dsimp only
    rw [hp]
    rfl

theorem decode_inv {r : Row} {t : Todo} (hd : decodeRow r = .ok t)
    (hr : rowInv r = true) : todoInv t = true := by
  unfold decodeRow at hd
  unfold rowInv at hr
  cases hdd : r.dueDate <;> cases hcc : r.completedAt <;>
    rw [hdd, hcc] at hd <;> rw [hcc] at hr <;>
    simp only [decodeCell] at hd <;>
    first
      | exact Except.noConfusion hd
      | (simp only [Except.ok.injEq] at hd
         subst hd
         unfold todoInv
         dsimp only
         simpa [cellPresent] using hr)

theorem update_preserves_inv {ctx : Ctx} {now : Nat} {todo : Todo}
    {s s' : Store} {res : Except Err Todo} {ex : Nat}
    (ht : todoInv todo = true) (hinv : invariantOK s = true)
    (h : updateTodoContext ctx now todo s = (res, s', ex)) :
    invariantOK s' = true := by
  unfold updateTodoContext at h
  split at h
  · simp only [Prod.mk.injEq] at h
    rw [← h.2.1]
    exact hinv
  · split at h
    · simp only [Prod.mk.injEq] at h
      obtain ⟨-, hs, -⟩ := h
      rw [← hs]
      unfold invariantOK at hinv ⊢
      rw [List.all_eq_true] at hinv ⊢
      intro x hx
      obtain ⟨r, hr, rfl⟩ := List.mem_map.mp hx
      by_cases hc : (r.id == todo.id && r.version == todo.version) = true
      · rw [if_pos hc]
        show rowInv (bumpRow now todo r) = true
        unfold rowInv bumpRow
        dsimp only
        rw [cellPresent_cellOfOpt]
        exact ht
      · rw [if_neg hc]
        exact hinv r hr
    · simp only [Prod.mk.injEq] at h
      rw [← h.2.1]
      exact hinv

theorem delete_preserves_inv {ctx : Ctx} {id : Nat}
    {s s' : Store} {res : Except Err Unit} {ex : Nat}
    (hinv : invariantOK s = true)
    (h : deleteTodoContext ctx id s = (res, s', ex)) :
    invariantOK s' = true := by
  unfold deleteTodoContext at h
  split at h
  · simp only [Prod.mk.injEq] at h
    rw [← h.2.1]
    exact hinv
  · split at h
    · simp only [Prod.mk.injEq] at h
      obtain ⟨-, hs, -⟩ := h
      rw [← hs]
      exact all_filter_of_all hinv
    · simp only [Prod.mk.injEq] at h
      rw [← h.2.1]
      exact hinv

theorem completeOne_preserves_inv {now id : Nat} {w w' : Store}
    (hinv : invariantOK w = true) (h : completeOne now id w = .ok w') :
    invariantOK w' = true := by
  unfold completeOne at h
  split at h
  · simp only [Except.ok.injEq] at h
    subst h
    unfold invariantOK at hinv ⊢
    rw [List.all_eq_true] at hinv ⊢
    intro x hx
    obtain ⟨r, hr, rfl⟩ := List.mem_map.mp hx
    by_cases hc : (r.id == id && r.status == "pending") = true
    · rw [if_pos hc]
      rfl
    · rw [if_neg hc]
      exact hinv r hr
  · exact absurd h (by simp)

theorem deleteOne_preserves_inv {id : Nat} {w w' : Store}
    (hinv : invariantOK w = true) (h : deleteOne id w = .ok w') :
    invariantOK w' = true := by
  unfold deleteOne at h
  split at h
  · simp only [Except.ok.injEq] at h
    subst h
    exact all_filter_of_all hinv
  · exact absurd h (by simp)

theorem bcLoop_inv {ctx : Ctx} {now : Nat} :
    ∀ (ids : List Nat) (i : Nat) (w : Store) (ex : Nat) {w' : Store}
      {ex' : Nat},
    invariantOK w = true →
    bcLoop ctx now ids i w ex = (.ok w', ex') →
    invariantOK w' = true := by
  intro ids
  induction ids with
  | nil =>
      intro i w ex w' ex' hinv h
      unfold bcLoop at h
      simp only [Prod.mk.injEq, Except.ok.injEq] at h
      rw [← h.1]
      exact hinv
  | cons id rest ih =>
      intro i w ex w' ex' hinv h
      unfold bcLoop at h
      split at h
      · exact absurd h (by simp)
      · cases hco : completeOne now id w with
        | error e => rw [hco] at h; exact absurd h (by simp)
        | ok w1 =>
            rw [hco] at h
            exact ih (i + 1) w1 (ex + 1)
              (completeOne_preserves_inv hinv hco) h

theorem bdLoop_inv {ctx : Ctx} :
    ∀ (ids : List Nat) (i : Nat) (w : Store) (ex : Nat) {w' : Store}
      {ex' : Nat},
    invariantOK w = true →
    bdLoop ctx ids i w ex = (.ok w', ex') →
    invariantOK w' = true := by
  intro ids
  induction ids with
  | nil =>
      intro i w ex w' ex' hinv h
      unfold bdLoop at h
      simp only [Prod.mk.injEq, Except.ok.injEq] at h
      rw [← h.1]
      exact hinv
  | cons id rest ih =>
      intro i w ex w' ex' hinv h
      unfold bdLoop at h
      split at h
      · exact absurd h (by simp)
      · cases hco : deleteOne id w with
        | error e => rw [hco] at h; exact absurd h (by simp)
        | ok w1 =>
            rw [hco] at h
            exact ih (i + 1) w1 (ex + 1)
              (deleteOne_preserves_inv hinv hco) h

theorem pcLoop_inv {ctx : Ctx} {now : Nat} :
    ∀ (ids : List Nat) (i : Nat) (w : Store) (acc : BatchResult) (ex : Nat)
      {r0 : Except Err BatchResult} {w' : Store} {ex' : Nat},
    invariantOK w = true →
    pcLoop ctx now ids i w acc ex = (r0, w', ex') →
    invariantOK w' = true := by
  intro ids
  induction ids with
  | nil =>
      intro i w acc ex r0 w' ex' hinv h
      unfold pcLoop at h
      simp only [Prod.mk.injEq] at h
      rw [← h.2.1]
      exact hinv
  | cons id rest ih =>
      intro i w acc ex r0 w' ex' hinv h
      unfold pcLoop at h
      split at h
      · simp only [Prod.mk.injEq] at h
        rw [← h.2.1]
        exact hinv
      · cases hco : completeOne now id w with
        | error e =>
            rw [hco] at h
            exact ih (i + 1) w _ (ex + 1) hinv h
        | ok w1 =>
            rw [hco] at h
            exact ih (i + 1) w1 _ (ex + 1)
              (completeOne_preserves_inv hinv hco) h

theorem pdLoop_inv {ctx : Ctx} :
    ∀ (ids : List Nat) (i : Nat) (w : Store) (acc : BatchResult) (ex : Nat)
      {r0 : Except Err BatchResult} {w' : Store} {ex' : Nat},
    invariantOK w = true →
    pdLoop ctx ids i w acc ex = (r0, w', ex') →
    invariantOK w' = true := by
  intro ids
  induction ids with
  | nil =>
      intro i w acc ex r0 w' ex' hinv h
      unfold pdLoop at h
      simp only [Prod.mk.injEq] at h
      rw [← h.2.1]
      exact hinv
  | cons id rest ih =>
      intro i w acc ex r0 w' ex' hinv h
      unfold pdLoop at h
      split at h
      · simp only [Prod.mk.injEq] at h
        rw [← h.2.1]
        exact hinv
      · cases hco : deleteOne id w with
        | error e =>
            rw [hco] at h
            exact ih (i + 1) w _ (ex + 1) hinv h
        | ok w1 =>
            rw [hco] at h
            exact ih (i + 1) w1 _ (ex + 1)
              (deleteOne_preserves_inv hinv hco) h

theorem merge_inv {now : Nat} {t0 : Todo} {req : UpdateReq}
    (hg : goodStatus req) (ht : todoInv t0 = true) :
    todoInv (mergeUpdate now t0 req) = true := by
  rcases req with ⟨ver, ti, de, st, dd⟩
  unfold goodStatus at hg
  dsimp only at hg
  unfold mergeUpdate
  dsimp only
  rcases hg with h | h | h <;> subst h <;>
    cases ti <;> cases de <;> cases dd <;> cases ver <;>
    first
      | exact ht
      | rfl

theorem bc_preserves_inv {ctx : Ctx} {now : Nat} {ids : List Nat}
    {s s' : Store} {res : Except Err Unit} {ex : Nat}
    (hinv : invariantOK s = true)
    (h : batchCompleteTodosContext ctx now ids s = (res, s', ex)) :
    invariantOK s' = true := by
  unfold batchCompleteTodosContext at h
  split at h
  · simp only [Prod.mk.injEq] at h
    rw [← h.2.1]
    exact hinv
  · split at h
    · simp only [Prod.mk.injEq] at h
      rw [← h.2.1]
      exact hinv
    · split at h
      · simp only [Prod.mk.injEq] at h
        rw [← h.2.1]
        exact hinv
      · rcases hb : bcLoop ctx now ids 0 s 1 with ⟨r0, ex0⟩
        rw [hb] at h
        cases r0 with
        | ok w =>
            simp only [Prod.mk.injEq] at h
            rw [← h.2.1]
            exact bcLoop_inv ids 0 s 1 hinv hb
        | error e =>
            simp only [Prod.mk.injEq] at h
            rw [← h.2.1]
            exact hinv

theorem bd_preserves_inv {ctx : Ctx} {ids : List Nat}
    {s s' : Store} {res : Except Err Unit} {ex : Nat}
    (hinv : invariantOK s = true)
    (h : batchDeleteTodosContext ctx ids s = (res, s', ex)) :
    invariantOK s' = true := by
  unfold batchDeleteTodosContext at h
  split at h
  · simp only [Prod.mk.injEq] at h
    rw [← h.2.1]
    exact hinv
  · split at h
    · simp only [Prod.mk.injEq] at h
      rw [← h.2.1]
      exact hinv
    · split at h
      · simp only [Prod.mk.injEq] at h
        rw [← h.2.1]
        exact hinv
      · rcases hb : bdLoop ctx ids 0 s 1 with ⟨r0, ex0⟩
        rw [hb] at h
        cases r0 with
        | ok w =>
            simp only [Prod.mk.injEq] at h
            rw [← h.2.1]
            exact bdLoop_inv ids 0 s 1 hinv hb
        | error e =>
            simp only [Prod.mk.injEq] at h
            rw [← h.2.1]
            exact hinv

theorem bcp_preserves_inv {ctx : Ctx} {now : Nat} {ids : List Nat}
    {s s' : Store} {res : Except Err BatchResult} {ex : Nat}
    (hinv : invariantOK s = true)
    (h : batchCompleteTodosPartialContext ctx now ids s = (res, s', ex)) :
    invariantOK s' = true := by
  unfold batchCompleteTodosPartialContext at h
  split at h
  · simp only [Prod.mk.injEq] at h
    rw [← h.2.1]
    exact hinv
  · split at h
    · simp only [Prod.mk.injEq] at h
      rw [← h.2.1]
      exact hinv
    · split at h
      · simp only [Prod.mk.injEq] at h
        rw [← h.2.1]
        exact hinv
      · rcases hb : pcLoop ctx now ids 0 s {} 1 with ⟨r0, w0, ex0⟩
        rw [hb] at h
        cases r0 with
        | ok acc =>
            simp only [Prod.mk.injEq] at h
            rw [← h.2.1]
            exact pcLoop_inv ids 0 s {} 1 hinv hb
        | error e =>
            simp only [Prod.mk.injEq] at h
            rw [← h.2.1]
            exact hinv

theorem bdp_preserves_inv {ctx : Ctx} {ids : List Nat}
    {s s' : Store} {res : Except Err BatchResult} {ex : Nat}
    (hinv : invariantOK s = true)
    (h : batchDeleteTodosPartialContext ctx ids s = (res, s', ex)) :
    invariantOK s' = true := by
  unfold batchDeleteTodosPartialContext at h
  split at h
  · simp only [Prod.mk.injEq] at h
    rw [← h.2.1]
    exact hinv
  · split at h
    · simp only [Prod.mk.injEq] at h
      rw [← h.2.1]
      exact hinv
    · split at h
      · simp only [Prod.mk.injEq] at h
        rw [← h.2.1]
        exact hinv
      · rcases hb : pdLoop ctx ids 0 s {} 1 with ⟨r0, w0, ex0⟩
        rw [hb] at h
        cases r0 with
        | ok acc =>
            simp only [Prod.mk.injEq] at h
            rw [← h.2.1]
            exact pdLoop_inv ids 0 s {} 1 hinv hb
        | error e =>
            simp only [Prod.mk.injEq] at h
            rw [← h.2.1]
            exact hinv

theorem handler_update_preserves_inv {ctx : Ctx} {now id : Nat}
    {req : UpdateReq} {s s' : Store} {res : Except Err Todo} {ex : Nat}
    (hg : goodStatus req) (hinv : invariantOK s = true)
    (h : handlerUpdateTodo ctx now id req s = (res, s', ex)) :
    invariantOK s' = true := by
  unfold handlerUpdateTodo at h
  split at h
  · simp only [Prod.mk.injEq] at h
    rw [← h.2.1]
    exact hinv
  · cases hg0 : getTodoByID id s with
    | error e =>
        rw [hg0] at h
        simp only [Prod.mk.injEq] at h
        rw [← h.2.1]
        exact hinv
    | ok o =>
        rw [hg0] at h
        cases o with
        | none =>
            simp only [Prod.mk.injEq] at h
            rw [← h.2.1]
            exact hinv
        | some t0 =>
            dsimp only at h
            rcases hu : updateTodoContext ctx now (mergeUpdate now t0 req) s
              with ⟨res0, s0, n⟩
            rw [hu] at h
            dsimp only at h
            simp only [Prod.mk.injEq] at h
            rw [← h.2.1]
            have ht0 : todoInv t0 = true := by
              unfold getTodoByID at hg0
              cases hf : s.rows.find? (fun r => r.id == id) with
              | none => rw [hf] at hg0; exact absurd hg0 (by simp)
              | some r0 =>
                  rw [hf] at hg0
                  dsimp only at hg0
                  cases hdr : decodeRow r0 with
                  | error e =>
                      rw [hdr] at hg0
                      exact absurd hg0 (by simp [Except.map])
                  | ok t1 =>
                      rw [hdr] at hg0
                      simp only [Except.map, Except.ok.injEq,
                        Option.some.injEq] at hg0
                      have hr0inv : rowInv r0 = true := by
                        have := (List.all_eq_true.mp hinv) r0
                          (List.mem_of_find?_eq_some hf)
                        exact this
                      rw [← hg0]
                      exact decode_inv hdr hr0inv
            exact update_preserves_inv (merge_inv hg ht0) hinv hu

/-- C8 (amended): starting from the empty database, in every store
reachable via the public operations where each update request's status
field, when present, is `pending` or `completed`, completed_at presence
exactly mirrors status = completed: completing a row stamps both
together and any transition to pending clears completed_at.  (Without
that restriction the claim fails: the handler copies an arbitrary status
string verbatim; see the counterexample.) -/
theorem reachable_completed_mirror {s : Store}
    (h : ReachVia goodStatus s) : invariantOK s = true := by
  induction h with
  | init => rfl
  | create ctx title description now hrec heq ih =>
      exact create_preserves_inv rfl ih heq
  | update ctx now id req hrec hg heq ih =>
      exact handler_update_preserves_inv hg ih heq
  | del ctx id hrec heq ih => exact delete_preserves_inv ih heq
  | bcomplete ctx now ids hrec heq ih => exact bc_preserves_inv ih heq
  | bdelete ctx ids hrec heq ih => exact bd_preserves_inv ih heq
  | bcompleteP ctx now ids hrec heq ih => exact bcp_preserves_inv ih heq
  | bdeleteP ctx ids hrec heq ih => exact bdp_preserves_inv ih heq

/-- A PUT body completing row 1 at its created version. -/
def c8req1 : UpdateReq := { version := some 1, status := some "completed" }

/-- A PUT body writing the out-of-enum status string "DONE" at version
2 (the handler performs no status validation). -/
def c8req2 : UpdateReq := { version := some 2, status := some "DONE" }

/-- Store after creating one row. -/
def c8s1 : Store :=
  (createTodoContext ctxNone (newTodo "a" "" 0) ⟨[], 1⟩).2.1

/-- Store after completing that row through the handler. -/
def c8s2 : Store := (handlerUpdateTodo ctxNone 1 1 c8req1 c8s1).2.1

/-- Store after then writing status "DONE" through the handler: the row
keeps its completed_at stamp while its status is no longer
`completed`. -/
def c8s3 : Store := (handlerUpdateTodo ctxNone 2 1 c8req2 c8s2).2.1

/-- C8 as frozen is refuted on the code: the store `c8s3` is reached
from the empty database by create, a completing update, and an update
whose status is the arbitrary string "DONE" — all public operations —
yet its row has completed_at present while status ≠ completed. -/
theorem status_outside_enum_breaks_invariant :
    ReachVia (fun _ => True) c8s3 ∧ invariantOK c8s3 = false := by
  constructor
  · exact ReachVia.update ctxNone 2 1 c8req2
      (ReachVia.update ctxNone 1 1 c8req1
        (ReachVia.create ctxNone "a" "" 0 ReachVia.init rfl)
        trivial rfl)
      trivial rfl
  · rfl

/-- Concrete instance of the amended C8: the store reached by create
then a legal completing update satisfies the mirror invariant. -/
theorem reachable_completed_mirror_witness : invariantOK c8s2 = true :=
  reachable_completed_mirror
    (ReachVia.update ctxNone 1 1 c8req1
      (ReachVia.create ctxNone "a" "" 0 ReachVia.init rfl)
      (Or.inr (Or.inr rfl)) rfl)

end TodoList
